import Mathlib

/-!
# Super Serial Unified Protocol: shallow embedding of `master.c`, `minion.c`,
the receiver of `protocol_minion.c` and the sender of `protocol_master.c`

The file-scope variables of each translation unit become the fields of a
record, and every C function becomes a function on that record.  Machine
integers are natural numbers reduced modulo `2 ^ w` at every store that can
overflow.  Arrays are lists; C library copies that would write past a fixed
array return `none`.

The memory-mapped input register `GPIOB_IDR` is an argument of each clock
handler (one sample per edge), the output register `GPIOB_ODR` is a field, and
the field `txTrace` records, oldest first, the argument of every call of a
`SendBit` routine: it is the sequence of bits the node has sent.
-/

namespace SSUP

/-! ## Shared constants and C library routines -/

/-- Pin position `TX_POS_PIN` (same value in master.c and minion.c). -/
def TX_POS_PIN : Nat := 6
/-- Pin position `TX_NEG_PIN`. -/
def TX_NEG_PIN : Nat := 7
/-- Pin position `RX_POS_PIN`. -/
def RX_POS_PIN : Nat := 4
/-- Pin position `RX_NEG_PIN`. -/
def RX_NEG_PIN : Nat := 5

/-- Bitwise complement of a 32-bit register mask: `~m` stored to a `uint32_t`. -/
def not32 (m : Nat) : Nat := 2 ^ 32 - 1 - m % 2 ^ 32

/-- The bytes written by C `strncpy(dst, src, n)`: the bytes of `src` up to its
first NUL, then NUL padding up to exactly `n` bytes.  `src` is the memory
readable at the source pointer; its end reads as NUL. -/
def strncpyBytes : List Nat → Nat → List Nat
  | _, 0 => []
  | [], n + 1 => List.replicate (n + 1) 0
  | c :: cs, n + 1 =>
    if c = 0 then List.replicate (n + 1) 0 else c :: strncpyBytes cs n

/-- C `strncpy(dst, src, n)` on a destination of known size: `none` when the
`n` written bytes do not fit. -/
def strncpy (dst src : List Nat) (n : Nat) : Option (List Nat) :=
  if n ≤ dst.length then some (strncpyBytes src n ++ dst.drop n) else none

/-- The bytes written by C `memcpy(dst, src, n)`: the first `n` bytes of `src`
(its end reads as 0). -/
def memcpyBytes (src : List Nat) (n : Nat) : List Nat :=
  (List.range n).map (fun i => src.getD i 0)

/-- C `memcpy(dst, src, n)` on a destination of known size: `none` when the `n`
written bytes do not fit. -/
def memcpy (dst src : List Nat) (n : Nat) : Option (List Nat) :=
  if n ≤ dst.length then some (memcpyBytes src n ++ dst.drop n) else none

/-- Positive receive line: `(GPIOB_IDR >> RX_POS_PIN) & 0x01`. -/
def receivedBitPositive (idr : Nat) : Nat := (idr >>> RX_POS_PIN) &&& 1
/-- Negative receive line: `(GPIOB_IDR >> RX_NEG_PIN) & 0x01`. -/
def receivedBitNegative (idr : Nat) : Nat := (idr >>> RX_NEG_PIN) &&& 1

/-- An input-register value carrying bit `b` on the differential receive pair:
positive line `b`, negative line the complement. -/
def lineSample (b : Nat) : Nat :=
  if b = 0 then 1 <<< RX_NEG_PIN else 1 <<< RX_POS_PIN

/-! ## minion.c -/

/-- Enum `MinionState` of minion.h. -/
inductive MinionState
  | MINION_IDLE
  | MINION_LISTEN_START
  | MINION_LISTEN_ADDRESS
  | MINION_SELECTED
  | MINION_SEND_RECEIVE_DATA
  deriving DecidableEq, Repr

open MinionState

/-- File-scope state of minion.c, with the output register and the sent-bit
trace. -/
structure Minion where
  /-- Variable `static MinionState minionState` -/
  minionState : MinionState
  /-- Variable `static uint8_t txData[8]` -/
  txData : List Nat
  /-- Variable `static uint8_t rxData[8]` -/
  rxData : List Nat
  /-- Variable `static uint8_t oldDataBuffer[1024]` -/
  oldDataBuffer : List Nat
  /-- Variable `static uint8_t oldDataIndex` -/
  oldDataIndex : Nat
  /-- Variable `static uint8_t bitIndex` -/
  bitIndex : Nat
  /-- Variable `static uint16_t minionAddress` -/
  minionAddress : Nat
  /-- Output register `GPIOB_ODR` (32 bits). -/
  GPIOB_ODR : Nat
  /-- Arguments of the `Minion_SendBit` calls so far, oldest first. -/
  txTrace : List Nat
  deriving DecidableEq, Repr

/-- The initial values of the statics of minion.c. -/
def Minion.initial : Minion :=
  { minionState := MINION_IDLE
    txData := List.replicate 8 0
    rxData := List.replicate 8 0
    oldDataBuffer := List.replicate 1024 0
    oldDataIndex := 0
    bitIndex := 0
    minionAddress := 0
    GPIOB_ODR := 0
    txTrace := [] }

/-- Variable `static const uint8_t startSequence = 0b11001`. -/
def startSequence : Nat := 0b11001

/-- Function `Minion_Init(address)`: the protocol part (the GPIO and NVIC setup is
outside the model). -/
def Minion_Init (s : Minion) (address : Nat) : Minion :=
  { s with minionAddress := address, minionState := MINION_IDLE, bitIndex := 0 }

/-- Function `Minion_SendBit(bit)`: drives the differential transmit pair. -/
def Minion_SendBit (s : Minion) (bit : Nat) : Minion :=
  if bit ≠ 0 then
    { s with
      GPIOB_ODR := (s.GPIOB_ODR ||| (1 <<< TX_POS_PIN)) &&& not32 (1 <<< TX_NEG_PIN)
      txTrace := s.txTrace ++ [bit] }
  else
    { s with
      GPIOB_ODR := (s.GPIOB_ODR &&& not32 (1 <<< TX_POS_PIN)) ||| (1 <<< TX_NEG_PIN)
      txTrace := s.txTrace ++ [bit] }

/-- The body of `case MINION_SEND_RECEIVE_DATA:` (also reached by fallthrough
from `case MINION_SELECTED:`). -/
def Minion_dataCase (s : Minion) (receivedBit : Nat) : Minion :=
  if s.bitIndex < 8 then
    let bitToSend := (s.txData.getD 0 0 >>> (7 - s.bitIndex)) &&& 1
    let s1 := Minion_SendBit s bitToSend
    { s1 with
      rxData := s1.rxData.set 0
        ((s1.rxData.getD 0 0 ||| (receivedBit <<< (7 - s1.bitIndex))) % 256)
      bitIndex := (s1.bitIndex + 1) % 256 }
  else
    let s1 :=
      if s.oldDataIndex < 1024 then
        { s with
          oldDataBuffer := s.oldDataBuffer.set s.oldDataIndex (s.rxData.getD 0 0)
          oldDataIndex := (s.oldDataIndex + 1) % 256 }
      else s
    { s1 with rxData := List.replicate 8 0, bitIndex := 0 }

/-- Function `Minion_Clock_Handle()`: one clock edge of the responder, `idr` being the
value of `GPIOB_IDR` sampled on that edge. -/
def Minion_Clock_Handle (s : Minion) (idr : Nat) : Minion :=
  let s0 :=
    if receivedBitPositive idr = receivedBitNegative idr then
      { s with minionState := MINION_IDLE }
    else s
  let receivedBit := receivedBitPositive idr
  match s0.minionState with
  | MINION_IDLE => s0
  | MINION_LISTEN_START =>
    if s0.bitIndex < 5 then
      let expectedBit := (startSequence >>> (4 - s0.bitIndex)) &&& 1
      if receivedBit = expectedBit then
        { s0 with bitIndex := (s0.bitIndex + 1) % 256 }
      else
        { s0 with bitIndex := 0 }
    else
      { s0 with bitIndex := 0, minionState := MINION_LISTEN_ADDRESS }
  | MINION_LISTEN_ADDRESS =>
    if s0.bitIndex < 10 then
      { s0 with
        minionAddress := ((s0.minionAddress <<< 1) ||| receivedBit) % 65536
        bitIndex := (s0.bitIndex + 1) % 256 }
    else
      let s1 :=
        if s0.minionAddress = s0.minionAddress then
          { s0 with minionState := MINION_SELECTED }
        else
          { s0 with minionState := MINION_IDLE }
      { s1 with bitIndex := 0 }
  | MINION_SELECTED =>
    Minion_dataCase { s0 with minionState := MINION_SEND_RECEIVE_DATA } receivedBit
  | MINION_SEND_RECEIVE_DATA =>
    Minion_dataCase s0 receivedBit

/-- Function `Minion_LoadData(data, length)`. -/
def Minion_LoadData (s : Minion) (data : List Nat) (length : Nat) : Option Minion :=
  let length := if length > 8 then 8 else length
  (memcpy s.txData data length).map (fun t => { s with txData := t })

/-- Function `Minion_ReadOldData(buffer, length)`: the caller's buffer after the call. -/
def Minion_ReadOldData (s : Minion) (buffer : List Nat) (length : Nat) :
    Option (List Nat) :=
  let length := if length > s.oldDataIndex then s.oldDataIndex else length
  strncpy buffer s.oldDataBuffer length

/-- The responder run over a sequence of sampled input-register values, one
clock edge each. -/
def Minion_run (s : Minion) (idrs : List Nat) : Minion :=
  idrs.foldl Minion_Clock_Handle s

/-! ## master.c -/

/-- Enum `MasterState` of master.h. -/
inductive MasterState
  | MASTER_IDLE
  | MASTER_START_SEQUENCE
  | MASTER_SEND_ADDRESS
  | MASTER_SEND_RECEIVE_DATA
  | MASTER_STOP_SEQUENCE
  | MASTER_ARB_LOST
  | MASTER_ARB_WON
  deriving DecidableEq, Repr

open MasterState

/-- Macro `#define START_SEQUENCE 0x19`. -/
def START_SEQUENCE : Nat := 0x19

/-- File-scope state of master.c.  `Master_Clock_Handle` also names
`minionState`, `bitIndex`, `txData` and `rxData`, which master.c does not
declare; they are fields of their own, with the types minion.c gives these
names, and are distinct from `txDataBuffer`, `rxDataBuffer` and
`bitPosition`. -/
structure Master where
  /-- Variable `static MasterState masterState` -/
  masterState : MasterState
  /-- Variable `static uint8_t txDataBuffer[8]` -/
  txDataBuffer : List Nat
  /-- Variable `static uint8_t rxDataBuffer[8]` -/
  rxDataBuffer : List Nat
  /-- Variable `static uint8_t bitPosition` -/
  bitPosition : Nat
  /-- Variable `static uint16_t masterAddress` -/
  masterAddress : Nat
  /-- Variable `static uint8_t dataLength` -/
  dataLength : Nat
  /-- Variable `static bool isClockMaster` -/
  isClockMaster : Bool
  /-- Variable `static bool arbitrationLost` -/
  arbitrationLost : Bool
  /-- Variable `static uint8_t oldDataBuffer[1024]` -/
  oldDataBuffer : List Nat
  /-- Variable `static uint8_t oldDataIndex` -/
  oldDataIndex : Nat
  /-- Variable `minionState`, assigned by `Master_Clock_Handle` -/
  minionState : MinionState
  /-- Variable `bitIndex`, the cursor of the data phase of `Master_Clock_Handle` -/
  bitIndex : Nat
  /-- Variable `txData`, read by the data phase of `Master_Clock_Handle` -/
  txData : List Nat
  /-- Variable `rxData`, written by the data phase of `Master_Clock_Handle` -/
  rxData : List Nat
  /-- Output register `GPIOB_ODR` (32 bits). -/
  GPIOB_ODR : Nat
  /-- Arguments of the `SendBit` calls so far, oldest first. -/
  txTrace : List Nat
  deriving DecidableEq, Repr

/-- The initial values of the statics of master.c. -/
def Master.initial : Master :=
  { masterState := MASTER_IDLE
    txDataBuffer := List.replicate 8 0
    rxDataBuffer := List.replicate 8 0
    bitPosition := 0
    masterAddress := 0
    dataLength := 0
    isClockMaster := false
    arbitrationLost := false
    oldDataBuffer := List.replicate 1024 0
    oldDataIndex := 0
    minionState := MINION_IDLE
    bitIndex := 0
    txData := List.replicate 8 0
    rxData := List.replicate 8 0
    GPIOB_ODR := 0
    txTrace := [] }

/-- Modelled from the spec: `Master_SendBit` is called by master.c and defined
nowhere in the repository.  The spec's differential codec: bit 1 drives
(high, low), bit 0 drives (low, high) on the transmit pair. -/
def Master_SendBit (s : Master) (bit : Nat) : Master :=
  if bit ≠ 0 then
    { s with
      GPIOB_ODR := (s.GPIOB_ODR ||| (1 <<< TX_POS_PIN)) &&& not32 (1 <<< TX_NEG_PIN)
      txTrace := s.txTrace ++ [bit] }
  else
    { s with
      GPIOB_ODR := (s.GPIOB_ODR &&& not32 (1 <<< TX_POS_PIN)) ||| (1 <<< TX_NEG_PIN)
      txTrace := s.txTrace ++ [bit] }

/-- Function `Minion_SendBit(bit)` as called from `Master_Clock_Handle`: the routine of
minion.c acting on the controller's output register. -/
def Master_Minion_SendBit (s : Master) (bit : Nat) : Master :=
  if bit ≠ 0 then
    { s with
      GPIOB_ODR := (s.GPIOB_ODR ||| (1 <<< TX_POS_PIN)) &&& not32 (1 <<< TX_NEG_PIN)
      txTrace := s.txTrace ++ [bit] }
  else
    { s with
      GPIOB_ODR := (s.GPIOB_ODR &&& not32 (1 <<< TX_POS_PIN)) ||| (1 <<< TX_NEG_PIN)
      txTrace := s.txTrace ++ [bit] }

/-- Function `Master_StartTransmission(txData, rxData, address, dataLength)`.  The
parameter `dataLength` shadows the static of the same name, so the last
statement assigns the parameter to itself; the parameter `rxData` is unused.
`none` when `strncpy` would write past the 8 bytes of `txDataBuffer`. -/
def Master_StartTransmission (s : Master) (txData _rxData : List Nat)
    (address dataLength : Nat) : Option Master :=
  (strncpy s.txDataBuffer txData dataLength).map fun t =>
    { s with
      txDataBuffer := t
      rxDataBuffer := List.replicate 8 0
      masterAddress := address
      bitPosition := 0
      arbitrationLost := false
      masterState := MASTER_START_SEQUENCE }

/-- Function `Master_Arbitration()`: `arbSense` is the level read on `MASTER_ARB_PIN`
(`false` for `GPIO_PIN_RESET`). -/
def Master_Arbitration (s : Master) (arbSense : Bool) : Master :=
  if arbSense = false then
    { s with arbitrationLost := true, masterState := MASTER_ARB_LOST }
  else s

/-- Function `Master_Clock_Handle()`: one clock edge of the controller, `idr` being the
value of `GPIOB_IDR` sampled on that edge and `arbSense` the level of the
arbitration-sense pin. -/
def Master_Clock_Handle (s : Master) (idr : Nat) (arbSense : Bool) : Master :=
  let s0 :=
    if receivedBitPositive idr = receivedBitNegative idr then
      { s with minionState := MINION_IDLE }
    else s
  let receivedBit := receivedBitPositive idr
  match s0.masterState with
  | MASTER_START_SEQUENCE =>
    if s0.bitPosition < 5 then
      let s1 :=
        if START_SEQUENCE &&& (1 <<< (4 - s0.bitPosition)) ≠ 0 then
          Master_SendBit s0 1
        else
          Master_SendBit s0 0
      { s1 with bitPosition := (s1.bitPosition + 1) % 256 }
    else
      { s0 with bitPosition := 0, masterState := MASTER_SEND_ADDRESS }
  | MASTER_SEND_ADDRESS =>
    if s0.bitPosition < 10 then
      let s1 :=
        if s0.masterAddress &&& (1 <<< (9 - s0.bitPosition)) ≠ 0 then
          Master_Arbitration (Master_SendBit s0 1) arbSense
        else
          Master_SendBit s0 0
      { s1 with bitPosition := (s1.bitPosition + 1) % 256 }
    else
      { s0 with bitPosition := 0, masterState := MASTER_SEND_RECEIVE_DATA }
  | MASTER_SEND_RECEIVE_DATA =>
    if s0.bitIndex < 8 then
      let bitToSend := (s0.txData.getD 0 0 >>> (7 - s0.bitIndex)) &&& 1
      let s1 := Master_Minion_SendBit s0 bitToSend
      { s1 with
        rxData := s1.rxData.set 0
          ((s1.rxData.getD 0 0 ||| (receivedBit <<< (7 - s1.bitIndex))) % 256)
        bitIndex := (s1.bitIndex + 1) % 256 }
    else
      let s1 :=
        if s0.oldDataIndex < 1024 then
          { s0 with
            oldDataBuffer := s0.oldDataBuffer.set s0.oldDataIndex (s0.rxData.getD 0 0)
            oldDataIndex := (s0.oldDataIndex + 1) % 256
            masterState := MASTER_STOP_SEQUENCE }
        else s0
      { s1 with rxData := List.replicate 8 0, bitIndex := 0 }
  | MASTER_STOP_SEQUENCE =>
    { s0 with
      GPIOB_ODR := (s0.GPIOB_ODR ||| (1 <<< RX_POS_PIN)) ||| (1 <<< RX_NEG_PIN) }
  | MASTER_ARB_LOST => { s0 with masterState := MASTER_IDLE }
  | MASTER_IDLE => s0
  | MASTER_ARB_WON => s0

/-- Function `Master_LoadData(data, length)`. -/
def Master_LoadData (s : Master) (data : List Nat) (length : Nat) : Option Master :=
  let length := if length > 8 then 8 else length
  (memcpy s.txDataBuffer data length).map (fun t => { s with txDataBuffer := t })

/-- Function `Master_ReadOldData(buffer, length)`: the caller's buffer after the call. -/
def Master_ReadOldData (s : Master) (buffer : List Nat) (length : Nat) :
    Option (List Nat) :=
  let length := if length > s.oldDataIndex then s.oldDataIndex else length
  memcpy buffer s.oldDataBuffer length

/-- The controller run over a sequence of edges, each with its sampled
input-register value and arbitration-sense level. -/
def Master_run (s : Master) (edges : List (Nat × Bool)) : Master :=
  edges.foldl (fun t e => Master_Clock_Handle t e.1 e.2) s



/-! ## protocol_minion.c -/

/-- Macro `BUFFER_SIZE` of protocol_config.h. -/
def BUFFER_SIZE : Nat := 256

/-- Macro `RX_H_PIN` of protocol_config.h (PB0). -/
def RX_H_PIN : Nat := 0
/-- Macro `RX_L_PIN` of protocol_config.h (PB1). -/
def RX_L_PIN : Nat := 1

/-- Macro `GPIO_IDR_IDR0` of the device header, which is not part of the
repository: the mask of input bit 0, the pin `RX_H_PIN`. -/
def GPIO_IDR_IDR0 : Nat := 1 <<< RX_H_PIN
/-- Macro `GPIO_IDR_IDR1` of the device header, which is not part of the
repository: the mask of input bit 1, the pin `RX_L_PIN`. -/
def GPIO_IDR_IDR1 : Nat := 1 <<< RX_L_PIN

/-- File-scope state of protocol_minion.c. -/
structure ProtocolMinion where
  /-- Variable `volatile uint8_t rx_buffer[BUFFER_SIZE]` -/
  rx_buffer : List Nat
  /-- Variable `volatile uint8_t rx_index` -/
  rx_index : Nat
  /-- Variable `uint8_t minion_address` -/
  minion_address : Nat
  deriving DecidableEq, Repr

/-- The initial values of the globals of protocol_minion.c
(`MINION_ADDRESS` is 0x34). -/
def ProtocolMinion.initial : ProtocolMinion :=
  { rx_buffer := List.replicate BUFFER_SIZE 0
    rx_index := 0
    minion_address := 0x34 }

/-- Function `EXTI2_IRQHandler()` of protocol_minion.c: `pending` is the test
`EXTI->PR & EXTI_PR_PR2`, `idr` the value of `GPIOB->IDR` sampled on the edge.
`Protocol_Minion_ProcessData()` has an empty body. -/
def EXTI2_IRQHandler (s : ProtocolMinion) (pending : Bool) (idr : Nat) : ProtocolMinion :=
  if pending then
    let rx_high := (idr &&& GPIO_IDR_IDR0) % 256
    let rx_low := (idr &&& GPIO_IDR_IDR1) % 256
    let received_bit := if rx_high > rx_low then 1 else 0
    let b1 := s.rx_buffer.set (s.rx_index / 8)
      ((s.rx_buffer.getD (s.rx_index / 8) 0 <<< 1) % 256)
    let b2 := b1.set (s.rx_index / 8) ((b1.getD (s.rx_index / 8) 0 ||| received_bit) % 256)
    let i1 := (s.rx_index + 1) % 256
    let i2 := if i1 ≥ BUFFER_SIZE * 8 then 0 else i1
    { s with rx_buffer := b2, rx_index := i2 }
  else s

/-- Function `Protocol_Minion_ReadByte()`: `rx_buffer[rx_index - 1]`, `none`
when the index `rx_index - 1` is outside the buffer (`rx_index = 0`). -/
def Protocol_Minion_ReadByte (s : ProtocolMinion) : Option Nat :=
  if 1 ≤ s.rx_index ∧ s.rx_index - 1 < s.rx_buffer.length then
    some (s.rx_buffer.getD (s.rx_index - 1) 0)
  else none

/-- The receiver of protocol_minion.c run over a sequence of sampled
input-register values, one pending clock interrupt each. -/
def Protocol_Minion_run (s : ProtocolMinion) (idrs : List Nat) : ProtocolMinion :=
  idrs.foldl (fun t idr => EXTI2_IRQHandler t true idr) s

/-! ## protocol_master.c -/

/-- Macro `GPIO_BSRR_BS0` of the device header, which is not part of the
repository: writing it to `BSRR` sets output bit 0 (TX_H). -/
def GPIO_BSRR_BS0 : Nat := 1 <<< 0
/-- Macro `GPIO_BSRR_BS1` of the device header: sets output bit 1 (TX_L). -/
def GPIO_BSRR_BS1 : Nat := 1 <<< 1
/-- Macro `GPIO_BSRR_BS2` of the device header: sets output bit 2 (clock). -/
def GPIO_BSRR_BS2 : Nat := 1 <<< 2
/-- Macro `GPIO_BSRR_BR0` of the device header: resets output bit 0 (TX_H). -/
def GPIO_BSRR_BR0 : Nat := 1 <<< 16
/-- Macro `GPIO_BSRR_BR1` of the device header: resets output bit 1 (TX_L). -/
def GPIO_BSRR_BR1 : Nat := 1 <<< 17
/-- Macro `GPIO_BSRR_BR2` of the device header: resets output bit 2 (clock). -/
def GPIO_BSRR_BR2 : Nat := 1 <<< 18

/-- The 16-bit output register of port A after the store `GPIOA->BSRR = v`,
by the register's hardware definition: bits 0..15 of `v` set the output bit of
the same number, bits 16..31 reset it, and setting wins. -/
def GPIO_BSRR_write (odr v : Nat) : Nat :=
  (odr &&& (0xFFFF ^^^ ((v >>> 16) &&& 0xFFFF))) ||| (v &&& 0xFFFF)

/-- Port A as driven by protocol_master.c: the output register, and the value
it had at each rising clock edge made by `clock_pulse`, oldest first. -/
structure ProtocolMaster where
  /-- Output register of GPIOA (16 bits): TX_H is bit 0, TX_L bit 1, the clock
  bit 2. -/
  GPIOA_ODR : Nat
  /-- Output-register values at the rising clock edges so far. -/
  clockEdges : List Nat
  deriving DecidableEq, Repr

/-- Function `clock_pulse()`: clock high, delay, clock low, delay. -/
def clock_pulse (p : ProtocolMaster) : ProtocolMaster :=
  let high := GPIO_BSRR_write p.GPIOA_ODR GPIO_BSRR_BS2
  { GPIOA_ODR := GPIO_BSRR_write high GPIO_BSRR_BR2
    clockEdges := p.clockEdges ++ [high] }

/-- The body of the `for` loop of `Protocol_Master_SendByte`, run `n` times
with the current value of the `uint8_t` variable `data`. -/
def Protocol_Master_SendByte_loop : Nat → ProtocolMaster → Nat → ProtocolMaster
  | 0, p, _ => p
  | n + 1, p, data =>
    let p1 : ProtocolMaster :=
      if data &&& 0x80 ≠ 0 then
        { p with GPIOA_ODR :=
            GPIO_BSRR_write (GPIO_BSRR_write p.GPIOA_ODR GPIO_BSRR_BS0) GPIO_BSRR_BR1 }
      else
        { p with GPIOA_ODR :=
            GPIO_BSRR_write (GPIO_BSRR_write p.GPIOA_ODR GPIO_BSRR_BR0) GPIO_BSRR_BS1 }
    Protocol_Master_SendByte_loop n (clock_pulse p1) ((data <<< 1) % 256)

/-- Function `Protocol_Master_SendByte(data)`: eight iterations. -/
def Protocol_Master_SendByte (p : ProtocolMaster) (data : Nat) : ProtocolMaster :=
  Protocol_Master_SendByte_loop 8 p data

/-! ## Specification-side definitions and scenarios -/

/-- The start pattern `11001` as the list of its bits, most significant first. -/
def startPattern : List Nat := [1, 1, 0, 0, 1]

/-- The eight bits of a byte, most significant first. -/
def byteBits (b : Nat) : List Nat :=
  (List.range 8).map (fun i => (b >>> (7 - i)) &&& 1)

/-- The nine samples of one completed data phase that delivers byte `b`: its
eight bits, most significant first, then the edge on which the byte is stored. -/
def dataPhaseSamples (b : Nat) : List Nat :=
  (byteBits b).map lineSample ++ [lineSample 0]

/-- The receive register after the bits `bits` have been or-ed in, starting at
cursor `k`: one `rxData[0] |= bit << (7 - k)` per bit. -/
def accumulate : Nat → Nat → List Nat → Nat
  | rx, _, [] => rx
  | rx, k, b :: bs => accumulate ((rx ||| (b <<< (7 - k))) % 256) (k + 1) bs

/-- The log and its index after the bytes `bs` have been stored one by one by
`oldDataBuffer[oldDataIndex++] = byte` with an 8-bit index. -/
def storeAll : List Nat → Nat → List Nat → List Nat × Nat
  | buf, i, [] => (buf, i)
  | buf, i, b :: bs => storeAll (buf.set i b) ((i + 1) % 256) bs

/-- The bits the controller sends on one edge, read off its state before the
edge (`Master_Clock_Handle_txTrace` proves that the handler sends exactly
these). -/
def Master_edgeBits (m : Master) : List Nat :=
  match m.masterState with
  | MASTER_START_SEQUENCE =>
    if m.bitPosition < 5 then
      [if START_SEQUENCE &&& (1 <<< (4 - m.bitPosition)) ≠ 0 then 1 else 0]
    else []
  | MASTER_SEND_ADDRESS =>
    if m.bitPosition < 10 then
      [if m.masterAddress &&& (1 <<< (9 - m.bitPosition)) ≠ 0 then 1 else 0]
    else []
  | MASTER_SEND_RECEIVE_DATA =>
    if m.bitIndex < 8 then [(m.txData.getD 0 0 >>> (7 - m.bitIndex)) &&& 1] else []
  | _ => []

/-- The bits the responder sends on one edge with a non-idle sample, read off
its state before the edge (`Minion_Clock_Handle_txTrace` proves that the
handler sends exactly these). -/
def Minion_edgeBits (n : Minion) : List Nat :=
  match n.minionState with
  | MINION_SELECTED | MINION_SEND_RECEIVE_DATA =>
    if n.bitIndex < 8 then [(n.txData.getD 0 0 >>> (7 - n.bitIndex)) &&& 1] else []
  | _ => []

/-- The bit the controller sends on its next edge (0 when it sends none).  The
sent bit does not depend on the sample taken on that edge. -/
def Master_drives (m : Master) : Nat :=
  ((Master_Clock_Handle m (lineSample 0) true).txTrace.drop m.txTrace.length).headD 0

/-- The bit the responder sends on its next edge with a non-idle sample (0 when
it sends none).  The sent bit does not depend on the bit sampled. -/
def Minion_drives (n : Minion) : Nat :=
  ((Minion_Clock_Handle n (lineSample 0)).txTrace.drop n.txTrace.length).headD 0

/-- One clock edge shared by a controller and a responder on an uncorrupted
line: each node samples the bit the other node sends on that edge, and the
arbitration-sense input reads high (no arbitration loss). -/
def lockstepEdge (p : Master × Minion) : Master × Minion :=
  (Master_Clock_Handle p.1 (lineSample (Minion_drives p.2)) true,
   Minion_Clock_Handle p.2 (lineSample (Master_drives p.1)))

/-- A number of shared clock edges in a row. -/
def lockstep : Nat → Master × Minion → Master × Minion
  | 0, p => p
  | n + 1, p => lockstep n (lockstepEdge p)

/-- The controller at the start of its data phase after
`Master_StartTransmission` with the one-byte payload `B` for address `A`: six
edges of start sequence and eleven edges of address phase, no arbitration
loss. -/
def startedController (B A : Nat) : Option Master :=
  (Master_StartTransmission Master.initial [B] [0] A 1).map fun m =>
    Master_run m (List.replicate 17 (lineSample 1, true))

/-- A selected responder at the start of its data phase with `txData[0]`
loaded with `C`. -/
def selectedResponder (C : Nat) : Minion :=
  { Minion.initial with
    minionState := MINION_SELECTED
    txData := C :: List.replicate 7 0 }

/-- The bytes accumulated by the controller and by the responder after the
eight data-phase edges of a transaction with controller payload `B`,
responder payload `C` and address `A`. -/
def transactionBytes (B C A : Nat) : Option (Nat × Nat) :=
  (startedController B A).map fun m =>
    let p := lockstep 8 (m, selectedResponder C)
    (p.1.rxData.getD 0 0, p.2.rxData.getD 0 0)

/-- The ten bits the controller sends during `MASTER_SEND_ADDRESS` for
`masterAddress = A` when it never loses arbitration. -/
def addressBitsSent (A : Nat) : List Nat :=
  (Master_run
    { Master.initial with masterState := MASTER_SEND_ADDRESS, masterAddress := A }
    (List.replicate 10 (lineSample 1, true))).txTrace

/-- A responder initialised with own address `a` that listens for an address
with its cursor at 0. -/
def listeningResponder (a : Nat) : Minion :=
  { Minion_Init Minion.initial a with minionState := MINION_LISTEN_ADDRESS }

/-- A responder listening for the start pattern with its cursor at 0. -/
def startListener : Minion :=
  { Minion.initial with minionState := MINION_LISTEN_START }

/-- A responder in its data phase with an empty log, cursor 0 and a cleared
receive register. -/
def receivingResponder : Minion :=
  { Minion.initial with minionState := MINION_SEND_RECEIVE_DATA }

/-- A controller in the middle of its address phase: address 5, cursor 3. -/
def busyController : Master :=
  { Master.initial with
    masterState := MASTER_SEND_ADDRESS, masterAddress := 5, bitPosition := 3 }

/-- A controller in the address phase of address `0b0000000101` with its cursor
on the first 1 bit. -/
def arbitratingController : Master :=
  { Master.initial with
    masterState := MASTER_SEND_ADDRESS, masterAddress := 5, bitPosition := 7 }

/-- A responder in the data phase at cursor 3 with a partly received byte. -/
def midByteResponder : Minion :=
  { Minion.initial with
    minionState := MINION_SEND_RECEIVE_DATA, bitIndex := 3,
    rxData := [160, 0, 0, 0, 0, 0, 0, 0] }

/-- A log holding the two completed bytes `0x00` and `0x05`. -/
def twoByteLog : List Nat := 0 :: 5 :: List.replicate 1022 0

/-- Level of the TX positive output line in an output-register value. -/
def txPositive (odr : Nat) : Bool := odr.testBit TX_POS_PIN
/-- Level of the TX negative output line in an output-register value. -/
def txNegative (odr : Nat) : Bool := odr.testBit TX_NEG_PIN

/-- The bits a controller sends on its next edge: the growth of its trace.  It
does not depend on the inputs of that edge. -/
def Master_sends (m : Master) : List Nat :=
  (Master_Clock_Handle m (lineSample 0) true).txTrace.drop m.txTrace.length

/-- The level sensed on a wired-AND bus on an edge shared by two controllers:
the AND of the bits driven on that edge (high when nobody drives). -/
def busSense (a b : Master) : Bool :=
  (Master_sends a ++ Master_sends b).all (fun bit => bit != 0)

/-- One clock edge shared by two controllers in lockstep on a wired-AND bus:
both read the sensed bus level on their arbitration-sense input. -/
def arbitrationEdge (p : Master × Master) : Master × Master :=
  (Master_Clock_Handle p.1 (lineSample 1) (busSense p.1 p.2),
   Master_Clock_Handle p.2 (lineSample 1) (busSense p.1 p.2))

/-- A number of shared edges of two controllers in a row. -/
def arbitrationRun : Nat → Master × Master → Master × Master
  | 0, p => p
  | n + 1, p => arbitrationEdge (arbitrationRun n p)

/-- A controller started on a transaction for address `A` by
`Master_StartTransmission` from the initial state. -/
def contender (A : Nat) : Option Master :=
  Master_StartTransmission Master.initial [0x41] [0] A 1

/-- An event of the controller's life: a clock edge with its inputs, or a call
of `Master_StartTransmission` with its arguments. -/
inductive MasterEvent
  | edge (idr : Nat) (arbSense : Bool)
  | start (txData rxData : List Nat) (address dataLength : Nat)
  deriving DecidableEq, Repr

/-- The controller after a sequence of events; `none` when a
`Master_StartTransmission` call is outside its defined behaviour. -/
def Master_exec : Master → List MasterEvent → Option Master
  | s, [] => some s
  | s, MasterEvent.edge idr a :: es => Master_exec (Master_Clock_Handle s idr a) es
  | s, MasterEvent.start tx rx addr len :: es =>
    (Master_StartTransmission s tx rx addr len).bind fun t => Master_exec t es

/-- The events of a transaction for address 5 that loses arbitration on its
first 1 bit: six start edges, seven address edges, the edge of bit position 7
with the sense input low, and one more edge. -/
def lostTransaction : List MasterEvent :=
  List.replicate 13 (MasterEvent.edge (lineSample 1) true) ++
    [MasterEvent.edge (lineSample 1) false, MasterEvent.edge (lineSample 1) true]

/-- A controller in `MASTER_STOP_SEQUENCE` whose output pair still drives the
bit 1 (TX positive high, TX negative low). -/
def stoppingController : Master :=
  { Master.initial with masterState := MASTER_STOP_SEQUENCE, GPIOB_ODR := 1 <<< TX_POS_PIN }

/-- An input-register value of the receiver of protocol_minion.c carrying bit
`b`: RX_H at `b`, RX_L at the complement. -/
def protocolSample (b : Nat) : Nat :=
  if b = 0 then 1 <<< RX_L_PIN else 1 <<< RX_H_PIN

/-- The state of `contender A` (the initial state if the call were
undefined). -/
def startedFor (A : Nat) : Master :=
  (contender A).getD Master.initial

/-- The number whose binary digits, most significant first, are `bits`. -/
def bitsToByte (bits : List Nat) : Nat :=
  bits.foldl (fun acc b => 2 * acc + b) 0

/-- The bit `EXTI2_IRQHandler` reads from an input-register value:
`rx_high > rx_low`. -/
def protocolReceivedBit (idr : Nat) : Nat :=
  if (idr &&& GPIO_IDR_IDR0) % 256 > (idr &&& GPIO_IDR_IDR1) % 256 then 1 else 0

/-- The state of the differential pair (TX_H, TX_L) in an output-register
value of port A, which the receiver sees on its inputs RX_H and RX_L: 1 is
high/low, 2 is low/high. -/
def linePair (odr : Nat) : Nat := odr % 4

/-- The output-register values at the clock edges produced by
`Protocol_Master_SendByte(B)` from the port state `p`. -/
def sendByteEdges (p : ProtocolMaster) (B : Nat) : List Nat :=
  (Protocol_Master_SendByte p B).clockEdges.drop p.clockEdges.length

/-- The line-pair states driven by `n` iterations of the send loop from the
value `data`: high/low when bit 7 of `data` is set, low/high otherwise, then
`data` shifted left in 8 bits. -/
def sentPairs : Nat → Nat → List Nat
  | 0, _ => []
  | n + 1, data =>
    (if data &&& 0x80 ≠ 0 then 1 else 2) :: sentPairs n ((data <<< 1) % 256)

/-- A receiver of protocol_minion.c at bit 16 of its buffer (byte 2), with
stale content in the buffer. -/
def staleReceiver : ProtocolMinion :=
  { rx_buffer := 0x11 :: 0x22 :: 0xFF :: List.replicate 253 0
    rx_index := 16
    minion_address := 0x34 }

/-- A register that takes in the bits `bits` one by one: shift left by one in
8 bits, then put the bit in position 0. -/
def shiftIn (v : Nat) (bits : List Nat) : Nat :=
  bits.foldl (fun w b => (2 * w + b) % 256) v

/-! ## Helper lemmas -/

/-- The mask test of the C code, `a & (1 << k)`, is non-zero exactly when bit
`k` of `a` is set. -/
theorem and_one_shiftLeft_ne_zero (a k : Nat) :
    a &&& (1 <<< k) ≠ 0 ↔ a.testBit k = true := by
  rw [Nat.one_shiftLeft, Nat.and_two_pow]
  cases h : a.testBit k <;> simp

/-- A sample made by `lineSample` is never in the idle (equal lines)
condition. -/
theorem lineSample_not_idle (b : Nat) :
    receivedBitPositive (lineSample b) ≠ receivedBitNegative (lineSample b) := by
  unfold lineSample
  split <;> decide

/-- The positive line of `lineSample b` carries `b` for a bit `b`. -/
theorem receivedBitPositive_lineSample (b : Nat) (hb : b < 2) :
    receivedBitPositive (lineSample b) = b := by
  interval_cases b <;> decide

/-! ## Responder: idle-line detection (C5) -/

/-- C5: on an edge whose sample has equal positive and negative input lines
(both high or both low), whatever the responder's state and cursor, the state
after `Minion_Clock_Handle` is `MINION_IDLE` and nothing else changes: no bit is
sent (trace and output register unchanged), `rxData` is unchanged and the
overflow log and its index are unchanged. -/
theorem C5_idle_line_forces_idle (s : Minion) (idr : Nat)
    (h : receivedBitPositive idr = receivedBitNegative idr) :
    (Minion_Clock_Handle s idr).minionState = MINION_IDLE ∧
    (Minion_Clock_Handle s idr).txTrace = s.txTrace ∧
    (Minion_Clock_Handle s idr).GPIOB_ODR = s.GPIOB_ODR ∧
    (Minion_Clock_Handle s idr).rxData = s.rxData ∧
    (Minion_Clock_Handle s idr).oldDataBuffer = s.oldDataBuffer ∧
    (Minion_Clock_Handle s idr).oldDataIndex = s.oldDataIndex ∧
    Minion_Clock_Handle s idr = { s with minionState := MINION_IDLE } := by
  simp [Minion_Clock_Handle, h]

/-- Witness of C5: a responder in the data phase at cursor 3 with a partly
received byte, sampled with both input lines high. -/
theorem C5_idle_line_forces_idle_witness :
    receivedBitPositive 48 = receivedBitNegative 48 ∧
    (Minion_Clock_Handle midByteResponder 48).minionState = MINION_IDLE ∧
    (Minion_Clock_Handle midByteResponder 48).txTrace = midByteResponder.txTrace ∧
    (Minion_Clock_Handle midByteResponder 48).GPIOB_ODR = midByteResponder.GPIOB_ODR ∧
    (Minion_Clock_Handle midByteResponder 48).rxData = midByteResponder.rxData ∧
    (Minion_Clock_Handle midByteResponder 48).oldDataBuffer =
      midByteResponder.oldDataBuffer ∧
    (Minion_Clock_Handle midByteResponder 48).oldDataIndex =
      midByteResponder.oldDataIndex ∧
    Minion_Clock_Handle midByteResponder 48 =
      { midByteResponder with minionState := MINION_IDLE } :=
  ⟨by decide, C5_idle_line_forces_idle midByteResponder 48 (by decide)⟩

/-! ## Controller: arbitration unit (C10) -/

/-- C10: in `MASTER_SEND_ADDRESS` with `bitPosition < 10`, on one edge: if the
address bit at the cursor (bit `9 - bitPosition` of `masterAddress`) is 1 and
the arbitration-sense input reads low, the controller ends the edge in
`MASTER_ARB_LOST` with `arbitrationLost` set; if the address bit is 0 the state
stays `MASTER_SEND_ADDRESS` and `arbitrationLost` is unchanged whatever the
sense input reads; if the bit is 1 and the sense input reads high the state
stays `MASTER_SEND_ADDRESS`. -/
theorem C10_arbitration_unit (s : Master) (idr : Nat) (arbSense : Bool)
    (hst : s.masterState = MASTER_SEND_ADDRESS) (hpos : s.bitPosition < 10) :
    (s.masterAddress.testBit (9 - s.bitPosition) = true → arbSense = false →
      (Master_Clock_Handle s idr arbSense).masterState = MASTER_ARB_LOST ∧
      (Master_Clock_Handle s idr arbSense).arbitrationLost = true) ∧
    (s.masterAddress.testBit (9 - s.bitPosition) = false →
      (Master_Clock_Handle s idr arbSense).masterState = MASTER_SEND_ADDRESS ∧
      (Master_Clock_Handle s idr arbSense).arbitrationLost = s.arbitrationLost) ∧
    (s.masterAddress.testBit (9 - s.bitPosition) = true → arbSense = true →
      (Master_Clock_Handle s idr arbSense).masterState = MASTER_SEND_ADDRESS) := by
  have hmask := and_one_shiftLeft_ne_zero s.masterAddress (9 - s.bitPosition)
  refine ⟨?_, ?_, ?_⟩
  · intro hb ha
    have hm := hmask.mpr hb
    by_cases hi : receivedBitPositive idr = receivedBitNegative idr <;>
      simp [Master_Clock_Handle, Master_Arbitration, Master_SendBit, hi, hst, hpos, hm, ha]
  · intro hb
    have hm : s.masterAddress &&& (1 <<< (9 - s.bitPosition)) = 0 := by
      by_contra hne
      rw [hmask.mp hne] at hb
      exact Bool.noConfusion hb
    by_cases hi : receivedBitPositive idr = receivedBitNegative idr <;>
      simp [Master_Clock_Handle, Master_SendBit, hi, hst, hpos, hm]
  · intro hb ha
    have hm := hmask.mpr hb
    by_cases hi : receivedBitPositive idr = receivedBitNegative idr <;>
      simp [Master_Clock_Handle, Master_Arbitration, Master_SendBit, hi, hst, hpos, hm, ha]

/-- Witness of C10: address `0b0000000101` with the cursor on its first 1 bit
and the sense input low. -/
theorem C10_arbitration_unit_witness :
    arbitratingController.masterState = MASTER_SEND_ADDRESS ∧
    arbitratingController.bitPosition < 10 ∧
    arbitratingController.masterAddress.testBit (9 - arbitratingController.bitPosition)
      = true ∧
    (Master_Clock_Handle arbitratingController (lineSample 1) false).masterState
      = MASTER_ARB_LOST ∧
    (Master_Clock_Handle arbitratingController (lineSample 1) false).arbitrationLost
      = true :=
  ⟨rfl, by decide, by decide,
    (C10_arbitration_unit arbitratingController (lineSample 1) false rfl (by decide)).1
      (by decide) rfl⟩

/-! ## Responder: start-pattern recognition (C6) -/

theorem expectedBit_eq (k : Nat) (hk : k < 5) :
    (startSequence >>> (4 - k)) &&& 1 = startPattern.getD k 0 := by
  interval_cases k <;> decide

theorem Minion_run_snoc (s : Minion) (pre : List Nat) (x : Nat) :
    Minion_run s (pre ++ [x]) = Minion_Clock_Handle (Minion_run s pre) x := by
  simp [Minion_run, List.foldl_append]

theorem Minion_run_append (s : Minion) (xs ys : List Nat) :
    Minion_run s (xs ++ ys) = Minion_run (Minion_run s xs) ys := by
  simp [Minion_run, List.foldl_append]

theorem Minion_dataCase_minionState (u : Minion) (b : Nat) :
    (Minion_dataCase u b).minionState = u.minionState := by
  simp only [Minion_dataCase, Minion_SendBit]
  split_ifs <;> rfl

/-- An idle sample: the handler only forces `MINION_IDLE`. -/
theorem Minion_Clock_Handle_idle (s : Minion) (idr : Nat)
    (h : receivedBitPositive idr = receivedBitNegative idr) :
    Minion_Clock_Handle s idr = { s with minionState := MINION_IDLE } := by
  simp [Minion_Clock_Handle, h]

/-- A listening edge before the fifth match: the cursor advances on the expected
bit and is reset on any other. -/
theorem Minion_Clock_Handle_listenStart (s : Minion) (idr : Nat)
    (h : receivedBitPositive idr ≠ receivedBitNegative idr)
    (hs : s.minionState = MINION_LISTEN_START) (hk : s.bitIndex < 5) :
    Minion_Clock_Handle s idr =
      if receivedBitPositive idr = startPattern.getD s.bitIndex 0 then
        { s with bitIndex := s.bitIndex + 1 }
      else { s with bitIndex := 0 } := by
  have hmod : (s.bitIndex + 1) % 256 = s.bitIndex + 1 := by omega
  simp only [Minion_Clock_Handle, if_neg h, hs, if_pos hk, expectedBit_eq s.bitIndex hk, hmod]

/-- A listening edge with the cursor at 5 or more: the responder moves to
`MINION_LISTEN_ADDRESS`. -/
theorem Minion_Clock_Handle_listenStart_done (s : Minion) (idr : Nat)
    (h : receivedBitPositive idr ≠ receivedBitNegative idr)
    (hs : s.minionState = MINION_LISTEN_START) (hk : ¬ s.bitIndex < 5) :
    Minion_Clock_Handle s idr =
      { s with bitIndex := 0, minionState := MINION_LISTEN_ADDRESS } := by
  simp only [Minion_Clock_Handle, if_neg h, hs, if_neg hk]

/-- No edge enters `MINION_LISTEN_START`, and an edge that stays there saw a
non-idle sample with the cursor below 5. -/
theorem listenStart_after (t : Minion) (x : Nat)
    (h : (Minion_Clock_Handle t x).minionState = MINION_LISTEN_START) :
    t.minionState = MINION_LISTEN_START ∧ t.bitIndex < 5 ∧
    receivedBitPositive x ≠ receivedBitNegative x := by
  by_cases hi : receivedBitPositive x = receivedBitNegative x
  · rw [Minion_Clock_Handle_idle t x hi] at h
    exact MinionState.noConfusion h
  · cases hs : t.minionState
    · simp [Minion_Clock_Handle, hi, hs] at h
    · by_cases hk : t.bitIndex < 5
      · exact ⟨rfl, hk, hi⟩
      · rw [Minion_Clock_Handle_listenStart_done t x hi hs hk] at h
        exact MinionState.noConfusion h
    · by_cases hk : t.bitIndex < 10 <;> simp [Minion_Clock_Handle, hi, hs, hk] at h
    · simp [Minion_Clock_Handle, hi, hs, Minion_dataCase_minionState] at h
    · simp [Minion_Clock_Handle, hi, hs, Minion_dataCase_minionState] at h

/-- Only `MINION_LISTEN_START` with the cursor at 5 or more leads into
`MINION_LISTEN_ADDRESS`. -/
theorem listenAddress_entered (t : Minion) (x : Nat)
    (hb : t.minionState ≠ MINION_LISTEN_ADDRESS)
    (h : (Minion_Clock_Handle t x).minionState = MINION_LISTEN_ADDRESS) :
    t.minionState = MINION_LISTEN_START ∧ ¬ t.bitIndex < 5 := by
  by_cases hi : receivedBitPositive x = receivedBitNegative x
  · rw [Minion_Clock_Handle_idle t x hi] at h
    exact MinionState.noConfusion h
  · cases hs : t.minionState
    · simp [Minion_Clock_Handle, hi, hs] at h
    · refine ⟨rfl, fun hk => ?_⟩
      rw [Minion_Clock_Handle_listenStart t x hi hs hk] at h
      split_ifs at h <;> simp [hs] at h
    · exact absurd hs hb
    · simp [Minion_Clock_Handle, hi, hs, Minion_dataCase_minionState] at h
    · simp [Minion_Clock_Handle, hi, hs, Minion_dataCase_minionState] at h

/-- While the responder listens for the start pattern, its cursor `k` is at
most 5 and the last `k` samples are the first `k` bits of the pattern. -/
theorem listenStart_invariant (s : Minion) (h0 : s.bitIndex = 0) (pre : List Nat)
    (h : (Minion_run s pre).minionState = MINION_LISTEN_START) :
    (Minion_run s pre).bitIndex ≤ 5 ∧ (Minion_run s pre).bitIndex ≤ pre.length ∧
    (pre.drop (pre.length - (Minion_run s pre).bitIndex)).map receivedBitPositive =
      startPattern.take (Minion_run s pre).bitIndex := by
  induction pre using List.reverseRecOn with
  | nil => simp [Minion_run, h0]
  | append_singleton pre x ih =>
    rw [Minion_run_snoc] at h ⊢
    obtain ⟨hst, hk, hi⟩ := listenStart_after _ x h
    obtain ⟨-, hlen, hpat⟩ := ih hst
    rw [Minion_Clock_Handle_listenStart _ x hi hst hk]
    split_ifs with hm
    · refine ⟨Nat.succ_le_of_lt hk, by simpa using hlen, ?_⟩
      have hd : (pre ++ [x]).length - ((Minion_run s pre).bitIndex + 1) =
          pre.length - (Minion_run s pre).bitIndex := by simp
      have hle : pre.length - (Minion_run s pre).bitIndex ≤ pre.length := Nat.sub_le _ _
      simp only [hd, List.drop_append_of_le_length hle, List.map_append, hpat, List.map_cons,
        List.map_nil, hm]
      generalize (Minion_run s pre).bitIndex = k at hk
      interval_cases k <;> rfl
    · simp

/-- C6: start-pattern resynchronisation.  (1) In `MINION_LISTEN_START` with
`bitIndex = k < 5`, a non-idle sample whose bit differs from bit `k` (most
significant first) of `11001` resets `bitIndex` to 0 and keeps the state
`MINION_LISTEN_START`.  (2) For a responder started in `MINION_LISTEN_START`
with `bitIndex = 0` and fed any sequence of samples, an edge takes it into
`MINION_LISTEN_ADDRESS` only if the five samples immediately before that edge
carried exactly the bits 1,1,0,0,1. -/
theorem C6_start_pattern_resync :
    (∀ (s : Minion) (idr k : Nat),
      s.minionState = MINION_LISTEN_START → s.bitIndex = k → k < 5 →
      receivedBitPositive idr ≠ receivedBitNegative idr →
      receivedBitPositive idr ≠ startPattern.getD k 0 →
      (Minion_Clock_Handle s idr).bitIndex = 0 ∧
      (Minion_Clock_Handle s idr).minionState = MINION_LISTEN_START) ∧
    (∀ (s : Minion) (pre : List Nat) (idr : Nat),
      s.minionState = MINION_LISTEN_START → s.bitIndex = 0 →
      (Minion_run s pre).minionState ≠ MINION_LISTEN_ADDRESS →
      (Minion_Clock_Handle (Minion_run s pre) idr).minionState = MINION_LISTEN_ADDRESS →
      5 ≤ pre.length ∧
      (pre.drop (pre.length - 5)).map receivedBitPositive = [1, 1, 0, 0, 1]) := by
  constructor
  · intro s idr k hs hk hk5 hi hm
    subst hk
    rw [Minion_Clock_Handle_listenStart s idr hi hs hk5, if_neg hm]
    exact ⟨rfl, hs⟩
  · intro s pre idr _ h0 hb h
    obtain ⟨hst, hk⟩ := listenAddress_entered _ idr hb h
    obtain ⟨h5, hlen, hpat⟩ := listenStart_invariant s h0 pre hst
    have hk5 : (Minion_run s pre).bitIndex = 5 := by omega
    rw [hk5] at hlen hpat
    exact ⟨hlen, hpat⟩

/-- Witness of C6: in the middle of the pattern (cursor 2, expected bit 0) a 1
resets the cursor; and after the samples 1,1,0,0,1 the next edge enters
`MINION_LISTEN_ADDRESS`. -/
theorem C6_start_pattern_resync_witness :
    ((Minion_Clock_Handle { startListener with bitIndex := 2 } (lineSample 1)).bitIndex = 0 ∧
      (Minion_Clock_Handle { startListener with bitIndex := 2 } (lineSample 1)).minionState
        = MINION_LISTEN_START) ∧
    (Minion_Clock_Handle
        (Minion_run startListener ([1, 1, 0, 0, 1].map lineSample)) (lineSample 0)).minionState
      = MINION_LISTEN_ADDRESS ∧
    (5 ≤ ([1, 1, 0, 0, 1].map lineSample).length ∧
      ((([1, 1, 0, 0, 1].map lineSample).drop
        (([1, 1, 0, 0, 1].map lineSample).length - 5)).map receivedBitPositive
        = [1, 1, 0, 0, 1])) :=
  ⟨C6_start_pattern_resync.1 { startListener with bitIndex := 2 } (lineSample 1) 2
      rfl rfl (by decide) (by decide) (by decide),
    by decide,
    C6_start_pattern_resync.2 startListener ([1, 1, 0, 0, 1].map lineSample) (lineSample 0)
      rfl rfl (by decide) (by decide)⟩

/-! ## Responder: the data phase -/

theorem Minion_SendBit_fields (s : Minion) (b : Nat) :
    (Minion_SendBit s b).minionState = s.minionState ∧
    (Minion_SendBit s b).txData = s.txData ∧
    (Minion_SendBit s b).rxData = s.rxData ∧
    (Minion_SendBit s b).oldDataBuffer = s.oldDataBuffer ∧
    (Minion_SendBit s b).oldDataIndex = s.oldDataIndex ∧
    (Minion_SendBit s b).bitIndex = s.bitIndex ∧
    (Minion_SendBit s b).minionAddress = s.minionAddress ∧
    (Minion_SendBit s b).txTrace = s.txTrace ++ [b] := by
  unfold Minion_SendBit
  split_ifs <;> simp

/-- A data-phase edge with the cursor below 8: one bit is sent and the sampled
bit is or-ed into `rxData[0]`. -/
theorem Minion_Clock_Handle_dataBit (s : Minion) (x : Nat)
    (hi : receivedBitPositive x ≠ receivedBitNegative x)
    (hs : s.minionState = MINION_SEND_RECEIVE_DATA) (hk : s.bitIndex < 8) :
    Minion_Clock_Handle s x =
      { Minion_SendBit s ((s.txData.getD 0 0 >>> (7 - s.bitIndex)) &&& 1) with
        rxData := s.rxData.set 0
          ((s.rxData.getD 0 0 ||| (receivedBitPositive x <<< (7 - s.bitIndex))) % 256)
        bitIndex := s.bitIndex + 1 } := by
  have hmod : (s.bitIndex + 1) % 256 = s.bitIndex + 1 := by omega
  obtain ⟨-, -, h3, -, -, h6, -, -⟩ :=
    Minion_SendBit_fields s ((s.txData.getD 0 0 >>> (7 - s.bitIndex)) &&& 1)
  simp only [Minion_Clock_Handle, if_neg hi, hs, Minion_dataCase, if_pos hk, h3, h6, hmod]

/-- The data-phase edge with the cursor at 8 or more: `rxData[0]` is stored at
`oldDataBuffer[oldDataIndex]`, the 8-bit index is incremented, the receive
buffer is cleared and the cursor reset. -/
theorem Minion_Clock_Handle_dataDone (s : Minion) (x : Nat)
    (hi : receivedBitPositive x ≠ receivedBitNegative x)
    (hs : s.minionState = MINION_SEND_RECEIVE_DATA) (hk : ¬ s.bitIndex < 8)
    (hidx : s.oldDataIndex < 1024) :
    Minion_Clock_Handle s x =
      { s with
        oldDataBuffer := s.oldDataBuffer.set s.oldDataIndex (s.rxData.getD 0 0)
        oldDataIndex := (s.oldDataIndex + 1) % 256
        rxData := List.replicate 8 0
        bitIndex := 0 } := by
  simp only [Minion_Clock_Handle, if_neg hi, hs, Minion_dataCase, if_neg hk, if_pos hidx]

/-- The data-phase bit edges: fed the bits `bits` from cursor `k`, the responder
accumulates them in `rxData[0]` and touches neither the log nor its index. -/
theorem Minion_run_dataBits (bits : List Nat) :
    ∀ s : Minion, s.minionState = MINION_SEND_RECEIVE_DATA →
      s.bitIndex + bits.length ≤ 8 → (∀ b ∈ bits, b < 2) → 0 < s.rxData.length →
      (Minion_run s (bits.map lineSample)).minionState = MINION_SEND_RECEIVE_DATA ∧
      (Minion_run s (bits.map lineSample)).bitIndex = s.bitIndex + bits.length ∧
      (Minion_run s (bits.map lineSample)).rxData =
        s.rxData.set 0 (accumulate (s.rxData.getD 0 0) s.bitIndex bits) ∧
      (Minion_run s (bits.map lineSample)).txData = s.txData ∧
      (Minion_run s (bits.map lineSample)).oldDataBuffer = s.oldDataBuffer ∧
      (Minion_run s (bits.map lineSample)).oldDataIndex = s.oldDataIndex := by
  induction bits with
  | nil =>
    intro s hs _ _ hrx
    refine ⟨hs, rfl, ?_, rfl, rfl, rfl⟩
    cases hr : s.rxData with
    | nil => simp [hr] at hrx
    | cons a as => simp [Minion_run, accumulate, hr]
  | cons b bs ih =>
    intro s hs hlen hb hrx
    have hk : s.bitIndex < 8 := by simp at hlen; omega
    have hb2 : b < 2 := hb b (List.mem_cons_self _ _)
    have hstep := Minion_Clock_Handle_dataBit s (lineSample b) (lineSample_not_idle b) hs hk
    rw [receivedBitPositive_lineSample b hb2] at hstep
    obtain ⟨f1, f2, -, f4, f5, -, -, -⟩ :=
      Minion_SendBit_fields s ((s.txData.getD 0 0 >>> (7 - s.bitIndex)) &&& 1)
    have hrun : Minion_run s ((b :: bs).map lineSample) =
        Minion_run (Minion_Clock_Handle s (lineSample b)) (bs.map lineSample) := rfl
    have t1 : (Minion_Clock_Handle s (lineSample b)).minionState =
        MINION_SEND_RECEIVE_DATA := by rw [hstep]; exact f1.trans hs
    have t2 : (Minion_Clock_Handle s (lineSample b)).bitIndex = s.bitIndex + 1 := by
      rw [hstep]
    have t3 : (Minion_Clock_Handle s (lineSample b)).rxData =
        s.rxData.set 0 ((s.rxData.getD 0 0 ||| (b <<< (7 - s.bitIndex))) % 256) := by
      rw [hstep]
    have t4 : (Minion_Clock_Handle s (lineSample b)).txData = s.txData := by
      rw [hstep]; exact f2
    have t5 : (Minion_Clock_Handle s (lineSample b)).oldDataBuffer = s.oldDataBuffer := by
      rw [hstep]; exact f4
    have t6 : (Minion_Clock_Handle s (lineSample b)).oldDataIndex = s.oldDataIndex := by
      rw [hstep]; exact f5
    obtain ⟨g1, g2, g3, g4, g5, g6⟩ := ih (Minion_Clock_Handle s (lineSample b)) t1
      (by rw [t2]; simp at hlen; omega) (fun c hc => hb c (List.mem_cons_of_mem _ hc))
      (by rw [t3]; simpa using hrx)
    rw [hrun]
    refine ⟨g1, ?_, ?_, ?_, ?_, ?_⟩
    · rw [g2, t2]; simp; omega
    · rw [g3, t3, t2]
      cases hr : s.rxData with
      | nil => simp [hr] at hrx
      | cons a as => simp [accumulate]
    · rw [g4, t4]
    · rw [g5, t5]
    · rw [g6, t6]

/-- Or-ing the eight bits of a byte into a cleared register, most significant
first, rebuilds the byte. -/
theorem accumulate_byteBits : ∀ b < 256, accumulate 0 0 (byteBits b) = b := by
  decide!

theorem byteBits_length (b : Nat) : (byteBits b).length = 8 := by
  simp [byteBits]

theorem byteBits_lt_two (b : Nat) : ∀ c ∈ byteBits b, c < 2 := by
  intro c hc
  simp only [byteBits, List.mem_map] at hc
  obtain ⟨i, -, rfl⟩ := hc
  rw [Nat.and_one_is_mod]
  omega

/-- One completed data phase delivering the byte `b`: the byte is stored at
`oldDataBuffer[oldDataIndex]` and the 8-bit index is incremented modulo 256;
the responder is back at the start of a data phase. -/
theorem Minion_run_dataPhase (s : Minion) (b : Nat) (hb : b < 256)
    (hs : s.minionState = MINION_SEND_RECEIVE_DATA) (hk : s.bitIndex = 0)
    (hrx : s.rxData = List.replicate 8 0) (hidx : s.oldDataIndex < 256) :
    (Minion_run s (dataPhaseSamples b)).minionState = MINION_SEND_RECEIVE_DATA ∧
    (Minion_run s (dataPhaseSamples b)).bitIndex = 0 ∧
    (Minion_run s (dataPhaseSamples b)).rxData = List.replicate 8 0 ∧
    (Minion_run s (dataPhaseSamples b)).oldDataBuffer = s.oldDataBuffer.set s.oldDataIndex b ∧
    (Minion_run s (dataPhaseSamples b)).oldDataIndex = (s.oldDataIndex + 1) % 256 := by
  obtain ⟨g1, g2, g3, -, g5, g6⟩ := Minion_run_dataBits (byteBits b) s hs
    (by rw [hk, byteBits_length]) (byteBits_lt_two b) (by simp [hrx])
  rw [hk, hrx] at g3
  rw [hk, byteBits_length] at g2
  have hacc : accumulate ((List.replicate 8 0).getD 0 0) 0 (byteBits b) = b :=
    accumulate_byteBits b hb
  rw [hacc] at g3
  unfold dataPhaseSamples
  rw [Minion_run_snoc, Minion_Clock_Handle_dataDone _ _ (lineSample_not_idle 0) g1
    (by rw [g2]; omega) (by rw [g6]; omega)]
  refine ⟨g1, rfl, rfl, ?_, ?_⟩
  · show List.set _ _ _ = _
    rw [g5, g6, g3]
    rfl
  · show (_ + 1) % 256 = _
    rw [g6]

/-- Completed data phases in a row: the log and its index evolve as `storeAll`
describes, with the index wrapping at 256. -/
theorem Minion_run_dataPhases (bs : List Nat) :
    ∀ s : Minion, (∀ b ∈ bs, b < 256) → s.minionState = MINION_SEND_RECEIVE_DATA →
      s.bitIndex = 0 → s.rxData = List.replicate 8 0 → s.oldDataIndex < 256 →
      (Minion_run s (bs.flatMap dataPhaseSamples)).oldDataBuffer =
        (storeAll s.oldDataBuffer s.oldDataIndex bs).1 ∧
      (Minion_run s (bs.flatMap dataPhaseSamples)).oldDataIndex =
        (storeAll s.oldDataBuffer s.oldDataIndex bs).2 := by
  induction bs with
  | nil => intro s _ _ _ _ _; exact ⟨rfl, rfl⟩
  | cons b bs ih =>
    intro s hb hs hk hrx hidx
    obtain ⟨g1, g2, g3, g4, g5⟩ :=
      Minion_run_dataPhase s b (hb b (List.mem_cons_self _ _)) hs hk hrx hidx
    obtain ⟨i1, i2⟩ := ih (Minion_run s (dataPhaseSamples b))
      (fun c hc => hb c (List.mem_cons_of_mem _ hc)) g1 g2 g3
      (by rw [g5]; exact Nat.mod_lt _ (by decide))
    rw [g4, g5] at i1 i2
    rw [List.flatMap_cons, Minion_run_append]
    exact ⟨i1, i2⟩

/-- The 8-bit index after `storeAll`. -/
theorem storeAll_index (bs : List Nat) :
    ∀ (buf : List Nat) (i : Nat), i < 256 →
      (storeAll buf i bs).2 = (i + bs.length) % 256 := by
  induction bs with
  | nil => intro buf i hi; simp [storeAll, Nat.mod_eq_of_lt hi]
  | cons b bs ih =>
    intro buf i _
    rw [storeAll, ih _ _ (Nat.mod_lt _ (by decide))]
    simp only [List.length_cons]
    omega

/-- The byte stored last by `storeAll` sits at the wrapped index of its
position in the sequence. -/
theorem storeAll_last (bs : List Nat) :
    ∀ (buf : List Nat) (i b : Nat), i < 256 → 256 ≤ buf.length →
      (storeAll buf i (bs ++ [b])).1.getD ((i + bs.length) % 256) 0 = b := by
  induction bs with
  | nil =>
    intro buf i b hi hlen
    simp [storeAll, Nat.mod_eq_of_lt hi]
    have : i < buf.length := by omega
    simp [List.getD_eq_getElem?_getD, this]
  | cons c bs ih =>
    intro buf i b _ hlen
    have hwrap : (i + (c :: bs).length) % 256 = ((i + 1) % 256 + bs.length) % 256 := by
      simp only [List.length_cons]
      omega
    rw [List.cons_append, storeAll, hwrap]
    exact ih _ _ _ (Nat.mod_lt _ (by decide)) (by simpa using hlen)

/-! ## Facts behind the lockstep model -/

/-- The bits the controller sends on an edge are determined by its state before
the edge. -/
theorem Master_Clock_Handle_txTrace (m : Master) (idr : Nat) (a : Bool) :
    (Master_Clock_Handle m idr a).txTrace = m.txTrace ++ Master_edgeBits m := by
  unfold Master_Clock_Handle Master_edgeBits
  by_cases hi : receivedBitPositive idr = receivedBitNegative idr
  · simp only [hi, if_true]
    split <;> rename_i heq <;> simp only [heq]
    · simp only [Master_SendBit]; split_ifs <;> simp
    · simp only [Master_SendBit, Master_Arbitration]; split_ifs <;> simp
    · simp only [Master_Minion_SendBit]; split_ifs <;> simp
    · simp
    · simp
    · simp
    · simp
  · simp only [hi, if_false]
    split <;> rename_i heq <;> simp only [heq]
    · simp only [Master_SendBit]; split_ifs <;> simp
    · simp only [Master_SendBit, Master_Arbitration]; split_ifs <;> simp
    · simp only [Master_Minion_SendBit]; split_ifs <;> simp
    · simp
    · simp
    · simp
    · simp

/-- The bits the responder sends on an edge with a non-idle sample are
determined by its state before the edge. -/
theorem Minion_Clock_Handle_txTrace (n : Minion) (idr : Nat)
    (h : receivedBitPositive idr ≠ receivedBitNegative idr) :
    (Minion_Clock_Handle n idr).txTrace = n.txTrace ++ Minion_edgeBits n := by
  unfold Minion_Clock_Handle Minion_edgeBits
  simp only [h, if_false]
  split <;> rename_i heq <;> simp only [heq]
  · simp
  · split_ifs <;> simp
  · split_ifs <;> simp
  · simp only [Minion_dataCase, Minion_SendBit]; split_ifs <;> simp
  · simp only [Minion_dataCase, Minion_SendBit]; split_ifs <;> simp

/-- The bits the controller sends on an edge do not depend on the sample it
takes on that edge. -/
theorem Master_txTrace_sample_independent (m : Master) (idr idr' : Nat) (a : Bool) :
    (Master_Clock_Handle m idr a).txTrace = (Master_Clock_Handle m idr' a).txTrace := by
  rw [Master_Clock_Handle_txTrace, Master_Clock_Handle_txTrace]

/-- The bits the responder sends on an edge do not depend on the bit it samples
on that edge, as long as the sample is not idle. -/
theorem Minion_txTrace_sample_independent (n : Minion) (idr idr' : Nat)
    (h : receivedBitPositive idr ≠ receivedBitNegative idr)
    (h' : receivedBitPositive idr' ≠ receivedBitNegative idr') :
    (Minion_Clock_Handle n idr).txTrace = (Minion_Clock_Handle n idr').txTrace := by
  rw [Minion_Clock_Handle_txTrace n idr h, Minion_Clock_Handle_txTrace n idr' h']

/-- No clock edge of the controller writes `txData`, the byte its data phase
sends. -/
theorem Master_Clock_Handle_txData (m : Master) (idr : Nat) (a : Bool) :
    (Master_Clock_Handle m idr a).txData = m.txData := by
  unfold Master_Clock_Handle
  by_cases hi : receivedBitPositive idr = receivedBitNegative idr
  · simp only [hi, if_true]
    split
    · simp only [Master_SendBit]; split_ifs <;> rfl
    · simp only [Master_SendBit, Master_Arbitration]; split_ifs <;> rfl
    · simp only [Master_Minion_SendBit]; split_ifs <;> rfl
    · rfl
    · rfl
    · rfl
    · rfl
  · simp only [hi, if_false]
    split
    · simp only [Master_SendBit]; split_ifs <;> rfl
    · simp only [Master_SendBit, Master_Arbitration]; split_ifs <;> rfl
    · simp only [Master_Minion_SendBit]; split_ifs <;> rfl
    · rfl
    · rfl
    · rfl
    · rfl

/-- Function `Master_StartTransmission` stores the payload in `txDataBuffer` and leaves
`txData`, the byte the data phase sends, as it was. -/
theorem Master_StartTransmission_txData (m m' : Master) (txData rxData : List Nat)
    (address dataLength : Nat)
    (h : Master_StartTransmission m txData rxData address dataLength = some m') :
    m'.txData = m.txData := by
  unfold Master_StartTransmission at h
  cases hc : strncpy m.txDataBuffer txData dataLength with
  | none => simp [hc] at h
  | some t =>
    simp only [hc, Option.map_some', Option.some.injEq] at h
    rw [← h]

/-! ## Data round trip (C1) -/

/-- C1, the code at the input B = 0xA5, C = 0x3C (address 3): after
`Master_StartTransmission` with payload 0xA5, the start and address phases and
the eight data-phase edges on an uncorrupted line, the controller has
accumulated 0x3C, the responder's payload, but the responder has accumulated
0x00 and not 0xA5: the controller's data phase sends `txData[0]`, while
`Master_StartTransmission` stored the payload in `txDataBuffer`. -/
theorem C1_responder_does_not_receive_payload :
    (startedController 0xA5 3).map (fun m => (m.masterState, m.bitIndex, m.txDataBuffer.getD 0 0))
      = some (MASTER_SEND_RECEIVE_DATA, 0, 0xA5) ∧
    transactionBytes 0xA5 0x3C 3 = some (0x3C, 0x00) := by
  decide

/-! ## Address transfer and address match (C2, C3, C4) -/

/-- The address-phase edge with the cursor at 10 or more: the comparison
`minionAddress == minionAddress` always selects the responder. -/
theorem Minion_Clock_Handle_listenAddress_done (s : Minion) (idr : Nat)
    (h : receivedBitPositive idr ≠ receivedBitNegative idr)
    (hs : s.minionState = MINION_LISTEN_ADDRESS) (hk : ¬ s.bitIndex < 10) :
    Minion_Clock_Handle s idr = { s with minionState := MINION_SELECTED, bitIndex := 0 } := by
  simp only [Minion_Clock_Handle, if_neg h, hs, if_neg hk, if_true]

/-- An address bit edge: the sampled bit is shifted into `minionAddress`, the
variable that holds the responder's own address. -/
theorem Minion_Clock_Handle_listenAddress (s : Minion) (idr : Nat)
    (h : receivedBitPositive idr ≠ receivedBitNegative idr)
    (hs : s.minionState = MINION_LISTEN_ADDRESS) (hk : s.bitIndex < 10) :
    Minion_Clock_Handle s idr =
      { s with
        minionAddress := ((s.minionAddress <<< 1) ||| receivedBitPositive idr) % 65536
        bitIndex := s.bitIndex + 1 } := by
  have hmod : (s.bitIndex + 1) % 256 = s.bitIndex + 1 := by omega
  simp only [Minion_Clock_Handle, if_neg h, hs, if_pos hk, hmod]

/-- C2, the code at the input A = 0, own address 1: the controller emits ten 0
bits for address 0; fed to a responder initialised with own address 1 and
listening at cursor 0 they leave the accumulated value 1024, not 0, because
the bits are shifted into the variable that already holds the own address. -/
theorem C2_accumulator_starts_from_own_address :
    addressBitsSent 0 = [0, 0, 0, 0, 0, 0, 0, 0, 0, 0] ∧
    (listeningResponder 1).bitIndex = 0 ∧
    (Minion_run (listeningResponder 1) ((addressBitsSent 0).map lineSample)).minionAddress
      = 1024 := by
  decide

/-- C3, the code at the input own address 5, received address 3: on the edge
after the tenth address bit the responder moves to `MINION_SELECTED` although
the received address differs from the address given to `Minion_Init`. -/
theorem C3_mismatching_address_selects :
    (Minion_Init Minion.initial 5).minionAddress = 5 ∧
    addressBitsSent 3 = [0, 0, 0, 0, 0, 0, 0, 0, 1, 1] ∧
    (Minion_run (listeningResponder 5) ((addressBitsSent 3).map lineSample)).minionState
      = MINION_LISTEN_ADDRESS ∧
    (Minion_run (listeningResponder 5)
      ((addressBitsSent 3).map lineSample ++ [lineSample 1])).minionState
      = MINION_SELECTED := by
  decide

/-- C4, the code at the input own address 1, state `MINION_LISTEN_ADDRESS`,
cursor 0, sampled bit 0: the edge changes the address stored by `Minion_Init`
from 1 to 2. -/
theorem C4_clock_edge_overwrites_own_address :
    (listeningResponder 1).minionAddress = 1 ∧
    (Minion_Clock_Handle (listeningResponder 1) (lineSample 0)).minionAddress = 2 := by
  decide

/-! ## Controller: starting a transaction (C7) -/

/-- C7 as stated fails: a controller in `MASTER_SEND_ADDRESS` (cursor 3,
address 5) accepts `Master_StartTransmission`; the call changes the state to
`MASTER_START_SEQUENCE`, the cursor to 0 and the address to 7. -/
theorem C7_start_while_busy_is_accepted :
    busyController.masterState ≠ MASTER_IDLE ∧
    ∃ s', Master_StartTransmission busyController [0x41] [0] 7 1 = some s' ∧
      s' ≠ busyController ∧ s'.masterState = MASTER_START_SEQUENCE ∧
      s'.bitPosition = 0 ∧ s'.masterAddress = 7 :=
  ⟨by decide, _, rfl, by decide, rfl, rfl, rfl⟩

/-- C7 amended: `Master_StartTransmission` has no state check and no result.
In every controller state, `MASTER_IDLE` or not, and for every argument list
with `dataLength <= 8`, the call is carried out: afterwards `masterState` is
`MASTER_START_SEQUENCE`, `bitPosition` is 0, `masterAddress` is the given
address, `arbitrationLost` is false, `rxDataBuffer` is all zero and the first
`dataLength` bytes of `txDataBuffer` are what `strncpy` writes; the other
variables are as before the call. -/
theorem C7_start_transmission_has_no_guard (s : Master) (txData rxData : List Nat)
    (address dataLength : Nat) (hlen : dataLength ≤ 8) (hbuf : s.txDataBuffer.length = 8) :
    ∃ s', Master_StartTransmission s txData rxData address dataLength = some s' ∧
      s'.masterState = MASTER_START_SEQUENCE ∧ s'.bitPosition = 0 ∧
      s'.masterAddress = address ∧ s'.arbitrationLost = false ∧
      s'.rxDataBuffer = List.replicate 8 0 ∧
      s'.txDataBuffer = strncpyBytes txData dataLength ++ s.txDataBuffer.drop dataLength ∧
      s'.dataLength = s.dataLength ∧ s'.isClockMaster = s.isClockMaster ∧
      s'.oldDataBuffer = s.oldDataBuffer ∧ s'.oldDataIndex = s.oldDataIndex ∧
      s'.minionState = s.minionState ∧ s'.bitIndex = s.bitIndex ∧
      s'.txData = s.txData ∧ s'.rxData = s.rxData ∧
      s'.GPIOB_ODR = s.GPIOB_ODR ∧ s'.txTrace = s.txTrace := by
  have hfit : dataLength ≤ s.txDataBuffer.length := by omega
  simp [Master_StartTransmission, strncpy, hfit]

/-- Witness of the amended C7: the call made in `MASTER_SEND_ADDRESS`. -/
theorem C7_start_transmission_has_no_guard_witness :
    (1 : Nat) ≤ 8 ∧ busyController.txDataBuffer.length = 8 ∧
    busyController.masterState = MASTER_SEND_ADDRESS ∧
    ∃ s', Master_StartTransmission busyController [0x41] [0] 7 1 = some s' ∧
      s'.masterState = MASTER_START_SEQUENCE ∧ s'.bitPosition = 0 ∧
      s'.masterAddress = 7 ∧ s'.arbitrationLost = false ∧
      s'.rxDataBuffer = List.replicate 8 0 ∧
      s'.txDataBuffer = strncpyBytes [0x41] 1 ++ busyController.txDataBuffer.drop 1 ∧
      s'.dataLength = busyController.dataLength ∧
      s'.isClockMaster = busyController.isClockMaster ∧
      s'.oldDataBuffer = busyController.oldDataBuffer ∧
      s'.oldDataIndex = busyController.oldDataIndex ∧
      s'.minionState = busyController.minionState ∧
      s'.bitIndex = busyController.bitIndex ∧
      s'.txData = busyController.txData ∧ s'.rxData = busyController.rxData ∧
      s'.GPIOB_ODR = busyController.GPIOB_ODR ∧ s'.txTrace = busyController.txTrace :=
  ⟨by decide, by decide, rfl,
    C7_start_transmission_has_no_guard busyController [0x41] [0] 7 1 (by decide) (by decide)⟩

/-! ## Overflow log (C8, C9) -/

/-- The 8-bit log index stays below 256 on every edge, so it never reaches the
capacity 1024 tested by the guard `oldDataIndex < 1024`. -/
theorem Minion_Clock_Handle_oldDataIndex_lt (s : Minion) (idr : Nat)
    (h : s.oldDataIndex < 256) : (Minion_Clock_Handle s idr).oldDataIndex < 256 := by
  have hd : ∀ (u : Minion) (b : Nat), u.oldDataIndex < 256 →
      (Minion_dataCase u b).oldDataIndex < 256 := by
    intro u b hu
    simp only [Minion_dataCase, Minion_SendBit]
    split_ifs <;> first | exact hu | exact Nat.mod_lt _ (by decide)
  by_cases hi : receivedBitPositive idr = receivedBitNegative idr
  · rw [Minion_Clock_Handle_idle s idr hi]; exact h
  · cases hs : s.minionState
    · simp only [Minion_Clock_Handle, if_neg hi, hs]; exact h
    · simp only [Minion_Clock_Handle, if_neg hi, hs]
      split_ifs <;> exact h
    · simp only [Minion_Clock_Handle, if_neg hi, hs]
      split_ifs <;> exact h
    · simp only [Minion_Clock_Handle, if_neg hi, hs]
      exact hd _ _ h
    · simp only [Minion_Clock_Handle, if_neg hi, hs]
      exact hd _ _ h

/-- The 8-bit log index stays below 256 over every sequence of edges. -/
theorem Minion_run_oldDataIndex_lt (idrs : List Nat) :
    ∀ s : Minion, s.oldDataIndex < 256 → (Minion_run s idrs).oldDataIndex < 256 := by
  induction idrs with
  | nil => intro s h; exact h
  | cons x xs ih =>
    intro s h
    exact ih _ (Minion_Clock_Handle_oldDataIndex_lt s x h)

/-- C8, the code at the input of 1025 completed data phases (1024 bytes 0xAA,
then the byte 0x55) on a responder with an empty log: the index ends at 1, not
at the capacity 1024, and the 1025th byte is not dropped: it is stored at
`oldDataBuffer[0]` over the first byte. -/
theorem C8_log_index_wraps_at_256 :
    (List.replicate 1024 0xAA ++ [0x55]).length = 1025 ∧
    (Minion_run receivingResponder
      ((List.replicate 1024 0xAA ++ [0x55]).flatMap dataPhaseSamples)).oldDataIndex = 1 ∧
    (Minion_run receivingResponder
      ((List.replicate 1024 0xAA ++ [0x55]).flatMap dataPhaseSamples)).oldDataBuffer.getD 0 0
      = 0x55 := by
  have hbytes : ∀ b ∈ List.replicate 1024 0xAA ++ [0x55], b < 256 := by
    intro b hb
    rcases List.mem_append.mp hb with h | h
    · rw [(List.mem_replicate.mp h).2]; decide
    · rw [List.mem_singleton.mp h]; decide
  obtain ⟨h1, h2⟩ := Minion_run_dataPhases (List.replicate 1024 0xAA ++ [0x55])
    receivingResponder hbytes rfl rfl rfl (by decide)
  have hlen : (List.replicate 1024 0xAA).length = 1024 := List.length_replicate _ _
  have hbuf : receivingResponder.oldDataBuffer.length = 1024 := by
    simp only [receivingResponder, Minion.initial, List.length_replicate]
  have hi0 : receivingResponder.oldDataIndex = 0 := rfl
  refine ⟨by rw [List.length_append, hlen]; rfl, ?_, ?_⟩
  · rw [h2, storeAll_index _ _ _ (by decide), List.length_append, hlen, hi0]
    rfl
  · have hlast := storeAll_last (List.replicate 1024 0xAA) receivingResponder.oldDataBuffer
      receivingResponder.oldDataIndex 0x55 (by decide) (by rw [hbuf]; decide)
    have hwrap : (receivingResponder.oldDataIndex + 1024) % 256 = 0 := by rw [hi0]
    rw [hlen, hwrap] at hlast
    rw [h1]
    exact hlast

/-- For a length within the source, `memcpy` writes the first `n` source
bytes. -/
theorem memcpyBytes_eq_take (src : List Nat) (n : Nat) (hn : n ≤ src.length) :
    memcpyBytes src n = src.take n := by
  apply List.ext_getElem
  · simp [memcpyBytes, hn]
  · intro i h1 h2
    have hi : i < src.length := by
      simp [memcpyBytes] at h1
      omega
    simp [memcpyBytes, List.getD_eq_getElem?_getD, hi]

/-- Function `Master_ReadOldData` copies the stored bytes faithfully: the first
`min(length, oldDataIndex)` bytes of the caller's buffer are the first stored
bytes, also when they contain `0x00`. -/
theorem Master_ReadOldData_copies (s : Master) (buffer : List Nat) (length : Nat)
    (hfit : min length s.oldDataIndex ≤ buffer.length)
    (hlog : s.oldDataIndex ≤ s.oldDataBuffer.length) :
    ∃ out, Master_ReadOldData s buffer length = some out ∧
      out.take (min length s.oldDataIndex) =
        s.oldDataBuffer.take (min length s.oldDataIndex) := by
  have hn : (if length > s.oldDataIndex then s.oldDataIndex else length) =
      min length s.oldDataIndex := by
    split_ifs <;> omega
  have hsrc : min length s.oldDataIndex ≤ s.oldDataBuffer.length := by omega
  refine ⟨memcpyBytes s.oldDataBuffer (min length s.oldDataIndex) ++
    buffer.drop (min length s.oldDataIndex), ?_, ?_⟩
  · simp only [Master_ReadOldData, hn, memcpy, if_pos hfit]
  · rw [memcpyBytes_eq_take _ _ hsrc, List.take_append_of_le_length (by simp [hsrc])]
    simp

/-- C9, the code at the input of a log holding the completed bytes 0x00, 0x05
(stored by two data phases) and a read of length 2 into a buffer holding
9, 9, 9: `Minion_ReadOldData` copies with `strncpy`, which stops at the 0x00
byte, and leaves 0, 0 where the stored bytes are 0, 5; `Master_ReadOldData`,
which copies with `memcpy`, returns 0, 5 for the same log. -/
theorem C9_minion_read_stops_at_zero_byte :
    (Minion_run receivingResponder ([0x00, 0x05].flatMap dataPhaseSamples)).oldDataIndex = 2 ∧
    (Minion_run receivingResponder
      ([0x00, 0x05].flatMap dataPhaseSamples)).oldDataBuffer.take 2 = [0x00, 0x05] ∧
    Minion_ReadOldData
      (Minion_run receivingResponder ([0x00, 0x05].flatMap dataPhaseSamples)) [9, 9, 9] 2
      = some [0, 0, 9] ∧
    Master_ReadOldData
      { Master.initial with oldDataBuffer := twoByteLog, oldDataIndex := 2 } [9, 9, 9] 2
      = some [0, 5, 9] := by
  decide

/-! ## Output lines: differential encode, stop sequence, arbitration loss (C13, C17, C12) -/

/-- A 32-bit value has no bit at position 32 or above. -/
theorem testBit_of_lt_two_pow_32 (odr i : Nat) (h : odr < 2 ^ 32) :
    (decide (i < 32) && odr.testBit i) = odr.testBit i := by
  by_cases hi : i < 32
  · simp [hi]
  · have hbig : odr < 2 ^ i :=
      lt_of_lt_of_le h (Nat.pow_le_pow_right (by decide) (Nat.le_of_not_lt hi))
    simp [Nat.testBit_lt_two_pow hbig]

/-- The bits of `~(1 << TX_NEG_PIN)` as a 32-bit mask. -/
theorem not32_neg_testBit (i : Nat) :
    (not32 (1 <<< TX_NEG_PIN)).testBit i = (decide (i < 32) && decide (i ≠ 7)) := by
  have hv : not32 (1 <<< TX_NEG_PIN) = 4294967167 := by decide
  rw [hv]
  by_cases hi : i < 32
  · interval_cases i <;> decide
  · have hbig : 4294967167 < 2 ^ i :=
      lt_of_lt_of_le (by decide) (Nat.pow_le_pow_right (by decide) (Nat.le_of_not_lt hi))
    simp [Nat.testBit_lt_two_pow hbig, hi]

/-- The bits of `~(1 << TX_POS_PIN)` as a 32-bit mask. -/
theorem not32_pos_testBit (i : Nat) :
    (not32 (1 <<< TX_POS_PIN)).testBit i = (decide (i < 32) && decide (i ≠ 6)) := by
  have hv : not32 (1 <<< TX_POS_PIN) = 4294967231 := by decide
  rw [hv]
  by_cases hi : i < 32
  · interval_cases i <;> decide
  · have hbig : 4294967231 < 2 ^ i :=
      lt_of_lt_of_le (by decide) (Nat.pow_le_pow_right (by decide) (Nat.le_of_not_lt hi))
    simp [Nat.testBit_lt_two_pow hbig, hi]

/-- The output register after driving bit 1: TX positive (bit 6) set, TX
negative (bit 7) cleared, the other bits of the 32-bit register kept. -/
theorem driveOne_testBit (odr i : Nat) :
    ((odr ||| (1 <<< TX_POS_PIN)) &&& not32 (1 <<< TX_NEG_PIN)).testBit i =
      if i = 6 then true else if i = 7 then false
      else (decide (i < 32) && odr.testBit i) := by
  have h1 : (1 <<< TX_POS_PIN : Nat) = 2 ^ 6 := by decide
  rw [Nat.testBit_and, Nat.testBit_or, not32_neg_testBit, h1, Nat.testBit_two_pow]
  by_cases h6 : i = 6
  · subst h6; simp
  · by_cases h7 : i = 7
    · subst h7; simp
    · have h6' : ¬ 6 = i := fun h => h6 h.symm
      simp [h6, h7, h6', Bool.and_comm]

/-- The output register after driving bit 0: TX positive (bit 6) cleared, TX
negative (bit 7) set, the other bits of the 32-bit register kept. -/
theorem driveZero_testBit (odr i : Nat) :
    ((odr &&& not32 (1 <<< TX_POS_PIN)) ||| (1 <<< TX_NEG_PIN)).testBit i =
      if i = 6 then false else if i = 7 then true
      else (decide (i < 32) && odr.testBit i) := by
  have h1 : (1 <<< TX_NEG_PIN : Nat) = 2 ^ 7 := by decide
  rw [Nat.testBit_or, Nat.testBit_and, not32_pos_testBit, h1, Nat.testBit_two_pow]
  by_cases h6 : i = 6
  · subst h6; simp
  · by_cases h7 : i = 7
    · subst h7; simp
    · have h7' : ¬ 7 = i := fun h => h7 h.symm
      simp [h6, h7, h7', Bool.and_comm]

/-- C13: differential encode.  For every 32-bit value of the output register
and every bit argument `b`, after `Minion_SendBit(b)` the TX positive bit (bit
6) is set and the TX negative bit (bit 7) is clear when `b` is non-zero, the TX
positive bit is clear and the TX negative bit is set when `b` is 0, and every
other bit of the output register is unchanged. -/
theorem C13_differential_encode (s : Minion) (b : Nat) (hreg : s.GPIOB_ODR < 2 ^ 32) :
    (b ≠ 0 → (Minion_SendBit s b).GPIOB_ODR.testBit 6 = true ∧
      (Minion_SendBit s b).GPIOB_ODR.testBit 7 = false) ∧
    (b = 0 → (Minion_SendBit s b).GPIOB_ODR.testBit 6 = false ∧
      (Minion_SendBit s b).GPIOB_ODR.testBit 7 = true) ∧
    (∀ i, i ≠ 6 → i ≠ 7 →
      (Minion_SendBit s b).GPIOB_ODR.testBit i = s.GPIOB_ODR.testBit i) := by
  by_cases hb : b = 0
  · have hodr : (Minion_SendBit s b).GPIOB_ODR =
        (s.GPIOB_ODR &&& not32 (1 <<< TX_POS_PIN)) ||| (1 <<< TX_NEG_PIN) := by
      simp [Minion_SendBit, hb]
    rw [hodr]
    refine ⟨fun h => absurd hb h, fun _ => ⟨?_, ?_⟩, fun i h6 h7 => ?_⟩
    · rw [driveZero_testBit]; rfl
    · rw [driveZero_testBit]; rfl
    · rw [driveZero_testBit, if_neg h6, if_neg h7, testBit_of_lt_two_pow_32 _ _ hreg]
  · have hodr : (Minion_SendBit s b).GPIOB_ODR =
        (s.GPIOB_ODR ||| (1 <<< TX_POS_PIN)) &&& not32 (1 <<< TX_NEG_PIN) := by
      simp [Minion_SendBit, hb]
    rw [hodr]
    refine ⟨fun _ => ⟨?_, ?_⟩, fun h => absurd h hb, fun i h6 h7 => ?_⟩
    · rw [driveOne_testBit]; rfl
    · rw [driveOne_testBit]; rfl
    · rw [driveOne_testBit, if_neg h6, if_neg h7, testBit_of_lt_two_pow_32 _ _ hreg]

/-- Witness of C13: sending 1 with the output register at `0x80` (TX negative
high, all else low). -/
theorem C13_differential_encode_witness :
    ({ Minion.initial with GPIOB_ODR := 0x80 } : Minion).GPIOB_ODR < 2 ^ 32 ∧
    (1 : Nat) ≠ 0 ∧
    (Minion_SendBit { Minion.initial with GPIOB_ODR := 0x80 } 1).GPIOB_ODR.testBit 6 = true ∧
    (Minion_SendBit { Minion.initial with GPIOB_ODR := 0x80 } 1).GPIOB_ODR.testBit 7 = false :=
  ⟨by decide, by decide,
    (C13_differential_encode { Minion.initial with GPIOB_ODR := 0x80 } 1 (by decide)).1
      (by decide)⟩

/-- C17, the code at the input of a controller in `MASTER_STOP_SEQUENCE` whose
output register is `0x40` (TX positive high, TX negative low, as left by
sending a 1): the stop edge sets bits 4 and 5, the RX pins, and leaves the TX
pair unequal (the register becomes `0x70`). -/
theorem C17_stop_sequence_sets_rx_pins :
    stoppingController.GPIOB_ODR = 0x40 ∧
    (Master_Clock_Handle stoppingController (lineSample 1) true).GPIOB_ODR = 0x70 ∧
    txPositive (Master_Clock_Handle stoppingController (lineSample 1) true).GPIOB_ODR = true ∧
    txNegative (Master_Clock_Handle stoppingController (lineSample 1) true).GPIOB_ODR
      = false := by
  decide

/-- The edge on which arbitration is lost: bit 1 has been sent, the state is
`MASTER_ARB_LOST`, the flag is set, and the output register is as
`Master_SendBit(1)` left it. -/
theorem Master_Clock_Handle_lossEdge (s : Master) (idr : Nat)
    (hst : s.masterState = MASTER_SEND_ADDRESS) (hpos : s.bitPosition < 10)
    (hbit : s.masterAddress.testBit (9 - s.bitPosition) = true) :
    (Master_Clock_Handle s idr false).masterState = MASTER_ARB_LOST ∧
    (Master_Clock_Handle s idr false).arbitrationLost = true ∧
    (Master_Clock_Handle s idr false).GPIOB_ODR =
      (s.GPIOB_ODR ||| (1 <<< TX_POS_PIN)) &&& not32 (1 <<< TX_NEG_PIN) ∧
    (Master_Clock_Handle s idr false).txTrace = s.txTrace ++ [1] := by
  have hm := (and_one_shiftLeft_ne_zero s.masterAddress (9 - s.bitPosition)).mpr hbit
  by_cases hi : receivedBitPositive idr = receivedBitNegative idr <;>
    simp [Master_Clock_Handle, Master_Arbitration, Master_SendBit, hi, hst, hpos, hm]

/-- An edge in `MASTER_ARB_LOST`: the controller moves to `MASTER_IDLE`, sends
nothing and leaves the output register alone. -/
theorem Master_Clock_Handle_arbLost (s : Master) (idr : Nat) (a : Bool)
    (hst : s.masterState = MASTER_ARB_LOST) :
    (Master_Clock_Handle s idr a).masterState = MASTER_IDLE ∧
    (Master_Clock_Handle s idr a).txTrace = s.txTrace ∧
    (Master_Clock_Handle s idr a).GPIOB_ODR = s.GPIOB_ODR ∧
    (Master_Clock_Handle s idr a).arbitrationLost = s.arbitrationLost ∧
    (Master_Clock_Handle s idr a).bitPosition = s.bitPosition := by
  by_cases hi : receivedBitPositive idr = receivedBitNegative idr <;>
    simp [Master_Clock_Handle, hi, hst]

/-- C12 as stated fails: the controller with address `0b0000000101` at bit
position 7 senses the bus low, ends the edge in `MASTER_ARB_LOST`, and its
output pair is still TX positive high, TX negative low: not released. -/
theorem C12_lines_not_released_on_loss :
    (Master_Clock_Handle arbitratingController (lineSample 1) false).masterState
      = MASTER_ARB_LOST ∧
    txPositive (Master_Clock_Handle arbitratingController (lineSample 1) false).GPIOB_ODR
      ≠ txNegative (Master_Clock_Handle arbitratingController (lineSample 1) false).GPIOB_ODR := by
  decide

/-- C12 amended: on an edge on which the controller detects arbitration loss
in `MASTER_SEND_ADDRESS` (address bit 1 at the cursor, sense input low) it ends
the edge in `MASTER_ARB_LOST` with its output pair left as driven for the bit
1 just sent (TX positive high, TX negative low); the following
`MASTER_ARB_LOST` edge drives no bit, leaves the output register as it is and
moves the controller to `MASTER_IDLE`. -/
theorem C12_loss_keeps_lines_driven (s : Master) (idr idr' : Nat) (a' : Bool)
    (hst : s.masterState = MASTER_SEND_ADDRESS) (hpos : s.bitPosition < 10)
    (hbit : s.masterAddress.testBit (9 - s.bitPosition) = true) :
    (Master_Clock_Handle s idr false).masterState = MASTER_ARB_LOST ∧
    txPositive (Master_Clock_Handle s idr false).GPIOB_ODR = true ∧
    txNegative (Master_Clock_Handle s idr false).GPIOB_ODR = false ∧
    (Master_Clock_Handle (Master_Clock_Handle s idr false) idr' a').txTrace =
      (Master_Clock_Handle s idr false).txTrace ∧
    (Master_Clock_Handle (Master_Clock_Handle s idr false) idr' a').GPIOB_ODR =
      (Master_Clock_Handle s idr false).GPIOB_ODR ∧
    (Master_Clock_Handle (Master_Clock_Handle s idr false) idr' a').masterState
      = MASTER_IDLE := by
  obtain ⟨h1, -, h3, -⟩ := Master_Clock_Handle_lossEdge s idr hst hpos hbit
  obtain ⟨g1, g2, g3, -, -⟩ := Master_Clock_Handle_arbLost _ idr' a' h1
  refine ⟨h1, ?_, ?_, g2, g3, g1⟩
  · rw [h3, txPositive, driveOne_testBit]; rfl
  · rw [h3, txNegative, driveOne_testBit]; rfl

/-- Witness of the amended C12: address `0b0000000101` at bit position 7. -/
theorem C12_loss_keeps_lines_driven_witness :
    arbitratingController.masterState = MASTER_SEND_ADDRESS ∧
    arbitratingController.bitPosition < 10 ∧
    arbitratingController.masterAddress.testBit (9 - arbitratingController.bitPosition)
      = true ∧
    (Master_Clock_Handle arbitratingController (lineSample 1) false).masterState
      = MASTER_ARB_LOST ∧
    txPositive (Master_Clock_Handle arbitratingController (lineSample 1) false).GPIOB_ODR
      = true ∧
    txNegative (Master_Clock_Handle arbitratingController (lineSample 1) false).GPIOB_ODR
      = false ∧
    (Master_Clock_Handle (Master_Clock_Handle arbitratingController (lineSample 1) false)
      (lineSample 1) true).txTrace =
      (Master_Clock_Handle arbitratingController (lineSample 1) false).txTrace ∧
    (Master_Clock_Handle (Master_Clock_Handle arbitratingController (lineSample 1) false)
      (lineSample 1) true).GPIOB_ODR =
      (Master_Clock_Handle arbitratingController (lineSample 1) false).GPIOB_ODR ∧
    (Master_Clock_Handle (Master_Clock_Handle arbitratingController (lineSample 1) false)
      (lineSample 1) true).masterState = MASTER_IDLE :=
  ⟨rfl, by decide, by decide,
    C12_loss_keeps_lines_driven arbitratingController (lineSample 1) (lineSample 1) true
      rfl (by decide) (by decide)⟩

/-! ## Controller: start-sequence emission (C14) -/

theorem Master_run_cons (s : Master) (e : Nat × Bool) (es : List (Nat × Bool)) :
    Master_run s (e :: es) = Master_run (Master_Clock_Handle s e.1 e.2) es := rfl

theorem Master_run_snoc (s : Master) (es : List (Nat × Bool)) (e : Nat × Bool) :
    Master_run s (es ++ [e]) = Master_Clock_Handle (Master_run s es) e.1 e.2 := by
  simp [Master_run, List.foldl_append]

/-- The mask test of the start-sequence phase picks bit `k` of the pattern
`11001`, most significant first. -/
theorem startBit_eq (k : Nat) (hk : k < 5) :
    (if START_SEQUENCE &&& (1 <<< (4 - k)) ≠ 0 then 1 else 0) = startPattern.getD k 0 := by
  interval_cases k <;> decide

/-- A start-sequence edge with the cursor below 5: one pattern bit is sent and
the cursor advances, whatever is sampled. -/
theorem Master_Clock_Handle_startBit (s : Master) (idr : Nat) (a : Bool)
    (hst : s.masterState = MASTER_START_SEQUENCE) (hk : s.bitPosition < 5) :
    (Master_Clock_Handle s idr a).masterState = MASTER_START_SEQUENCE ∧
    (Master_Clock_Handle s idr a).bitPosition = s.bitPosition + 1 ∧
    (Master_Clock_Handle s idr a).txTrace = s.txTrace ++ [startPattern.getD s.bitPosition 0] := by
  have hmod : (s.bitPosition + 1) % 256 = s.bitPosition + 1 := by omega
  refine ⟨?_, ?_, ?_⟩
  · by_cases hi : receivedBitPositive idr = receivedBitNegative idr <;>
      by_cases hm : START_SEQUENCE &&& (1 <<< (4 - s.bitPosition)) = 0 <;>
      simp [Master_Clock_Handle, Master_SendBit, hi, hst, hk, hm]
  · by_cases hi : receivedBitPositive idr = receivedBitNegative idr <;>
      by_cases hm : START_SEQUENCE &&& (1 <<< (4 - s.bitPosition)) = 0 <;>
      simp [Master_Clock_Handle, Master_SendBit, hi, hst, hk, hm, hmod]
  · rw [Master_Clock_Handle_txTrace, Master_edgeBits]
    simp only [hst, if_pos hk, startBit_eq s.bitPosition hk]

/-- The start-sequence edge with the cursor at 5 or more: no bit is sent, the
cursor is reset and the controller moves to `MASTER_SEND_ADDRESS`. -/
theorem Master_Clock_Handle_startDone (s : Master) (idr : Nat) (a : Bool)
    (hst : s.masterState = MASTER_START_SEQUENCE) (hk : ¬ s.bitPosition < 5) :
    (Master_Clock_Handle s idr a).masterState = MASTER_SEND_ADDRESS ∧
    (Master_Clock_Handle s idr a).bitPosition = 0 ∧
    (Master_Clock_Handle s idr a).txTrace = s.txTrace := by
  refine ⟨?_, ?_, ?_⟩
  · by_cases hi : receivedBitPositive idr = receivedBitNegative idr <;>
      simp [Master_Clock_Handle, hi, hst, hk]
  · by_cases hi : receivedBitPositive idr = receivedBitNegative idr <;>
      simp [Master_Clock_Handle, hi, hst, hk]
  · rw [Master_Clock_Handle_txTrace, Master_edgeBits]
    simp only [hst, if_neg hk, List.append_nil]

/-- Start-sequence edges in a row, from cursor `j`: the pattern bits from
position `j` on are sent, one per edge. -/
theorem Master_run_startBits (es : List (Nat × Bool)) :
    ∀ s : Master, s.masterState = MASTER_START_SEQUENCE → s.bitPosition + es.length ≤ 5 →
      (Master_run s es).masterState = MASTER_START_SEQUENCE ∧
      (Master_run s es).bitPosition = s.bitPosition + es.length ∧
      (Master_run s es).txTrace =
        s.txTrace ++ (startPattern.drop s.bitPosition).take es.length := by
  induction es with
  | nil => intro s hst _; exact ⟨hst, rfl, by simp [Master_run]⟩
  | cons e es ih =>
    intro s hst hlen
    have hk : s.bitPosition < 5 := by simp at hlen; omega
    obtain ⟨t1, t2, t3⟩ := Master_Clock_Handle_startBit s e.1 e.2 hst hk
    obtain ⟨g1, g2, g3⟩ := ih (Master_Clock_Handle s e.1 e.2) t1
      (by rw [t2]; simp at hlen; omega)
    rw [Master_run_cons]
    refine ⟨g1, by rw [g2, t2]; simp; omega, ?_⟩
    rw [g3, t3, t2, List.append_assoc]
    congr 1
    generalize s.bitPosition = k at hk
    interval_cases k <;> rfl

/-- C14: start-sequence emission.  From `MASTER_START_SEQUENCE` with
`bitPosition = 0`, over any six edges (any line samples and sense levels), the
controller has sent after `k <= 5` edges exactly the first `k` bits of
1,1,0,0,1, so one bit per edge in that order; the sixth edge sends no bit, and
after it `bitPosition` is 0 and `masterState` is `MASTER_SEND_ADDRESS`. -/
theorem C14_start_sequence_emission (s : Master) (es : List (Nat × Bool))
    (hst : s.masterState = MASTER_START_SEQUENCE) (hpos : s.bitPosition = 0)
    (hlen : es.length = 6) :
    (∀ k, k ≤ 5 → (Master_run s (es.take k)).txTrace = s.txTrace ++ [1, 1, 0, 0, 1].take k) ∧
    (Master_run s es).txTrace = s.txTrace ++ [1, 1, 0, 0, 1] ∧
    (Master_run s es).bitPosition = 0 ∧
    (Master_run s es).masterState = MASTER_SEND_ADDRESS := by
  have hpre : ∀ k, k ≤ 5 →
      (Master_run s (es.take k)).masterState = MASTER_START_SEQUENCE ∧
      (Master_run s (es.take k)).bitPosition = k ∧
      (Master_run s (es.take k)).txTrace = s.txTrace ++ [1, 1, 0, 0, 1].take k := by
    intro k hk
    have hl : (es.take k).length = k := by rw [List.length_take]; omega
    obtain ⟨g1, g2, g3⟩ := Master_run_startBits (es.take k) s hst (by rw [hpos, hl]; omega)
    rw [hpos, hl] at g2 g3
    exact ⟨g1, by simpa using g2, by simpa [startPattern] using g3⟩
  refine ⟨fun k hk => (hpre k hk).2.2, ?_⟩
  obtain ⟨g1, g2, g3⟩ := hpre 5 (le_refl 5)
  have hsplit : es = es.take 5 ++ [es.getD 5 (0, false)] := by
    match es, hlen with
    | [e1, e2, e3, e4, e5, e6], _ => rfl
  obtain ⟨d1, d2, d3⟩ := Master_Clock_Handle_startDone (Master_run s (es.take 5))
    (es.getD 5 (0, false)).1 (es.getD 5 (0, false)).2 g1 (by rw [g2]; decide)
  rw [hsplit, Master_run_snoc]
  exact ⟨by rw [d3, g3]; rfl, d2, d1⟩

/-- Witness of C14: the controller right after `Master_StartTransmission`,
with six edges of varied inputs, among them an idle sample and a low sense
level. -/
theorem C14_start_sequence_emission_witness :
    ({ Master.initial with masterState := MASTER_START_SEQUENCE } : Master).masterState
      = MASTER_START_SEQUENCE ∧
    ({ Master.initial with masterState := MASTER_START_SEQUENCE } : Master).bitPosition = 0 ∧
    [(lineSample 1, true), (0, false), (lineSample 0, true), (48, true),
      (lineSample 1, false), (lineSample 0, true)].length = 6 ∧
    (Master_run { Master.initial with masterState := MASTER_START_SEQUENCE }
      [(lineSample 1, true), (0, false), (lineSample 0, true), (48, true),
        (lineSample 1, false), (lineSample 0, true)]).txTrace = [] ++ [1, 1, 0, 0, 1] ∧
    (Master_run { Master.initial with masterState := MASTER_START_SEQUENCE }
      [(lineSample 1, true), (0, false), (lineSample 0, true), (48, true),
        (lineSample 1, false), (lineSample 0, true)]).bitPosition = 0 ∧
    (Master_run { Master.initial with masterState := MASTER_START_SEQUENCE }
      [(lineSample 1, true), (0, false), (lineSample 0, true), (48, true),
        (lineSample 1, false), (lineSample 0, true)]).masterState = MASTER_SEND_ADDRESS :=
  ⟨rfl, rfl, rfl,
    (C14_start_sequence_emission { Master.initial with masterState := MASTER_START_SEQUENCE }
      [(lineSample 1, true), (0, false), (lineSample 0, true), (48, true),
        (lineSample 1, false), (lineSample 0, true)] rfl rfl rfl).2⟩

/-! ## Responder: idle and end of the data phase (C20, C15) -/

/-- An edge taken in `MINION_IDLE` changes nothing, whatever is sampled. -/
theorem Minion_Clock_Handle_of_idle (s : Minion) (idr : Nat)
    (hs : s.minionState = MINION_IDLE) : Minion_Clock_Handle s idr = s := by
  have hself : ({ s with minionState := MINION_IDLE } : Minion) = s := by
    cases s
    simp only [Minion.mk.injEq, and_true, true_and] at hs ⊢
    exact hs.symm
  by_cases hi : receivedBitPositive idr = receivedBitNegative idr
  · rw [Minion_Clock_Handle_idle s idr hi, hself]
  · simp only [Minion_Clock_Handle, if_neg hi, hs]

/-- C20: the source never drives the responder out of idle.  After
`Minion_Init(a)`, over every finite sequence of line samples fed to
`Minion_Clock_Handle`, the state remains `MINION_IDLE`, `bitIndex` remains 0,
no bit is sent (trace and output register unchanged), and the overflow log and
its index are unchanged; the whole state stays as `Minion_Init` left it. -/
theorem C20_responder_never_leaves_idle (s0 : Minion) (a : Nat) (idrs : List Nat) :
    (Minion_run (Minion_Init s0 a) idrs).minionState = MINION_IDLE ∧
    (Minion_run (Minion_Init s0 a) idrs).bitIndex = 0 ∧
    (Minion_run (Minion_Init s0 a) idrs).txTrace = s0.txTrace ∧
    (Minion_run (Minion_Init s0 a) idrs).GPIOB_ODR = s0.GPIOB_ODR ∧
    (Minion_run (Minion_Init s0 a) idrs).oldDataBuffer = s0.oldDataBuffer ∧
    (Minion_run (Minion_Init s0 a) idrs).oldDataIndex = s0.oldDataIndex ∧
    Minion_run (Minion_Init s0 a) idrs = Minion_Init s0 a := by
  have hfix : ∀ (l : List Nat) (s : Minion), s.minionState = MINION_IDLE →
      Minion_run s l = s := by
    intro l
    induction l with
    | nil => intro s _; rfl
    | cons x xs ih =>
      intro s hs
      show Minion_run (Minion_Clock_Handle s x) xs = s
      rw [Minion_Clock_Handle_of_idle s x hs]
      exact ih s hs
  rw [hfix idrs (Minion_Init s0 a) rfl]
  exact ⟨rfl, rfl, rfl, rfl, rfl, rfl, rfl⟩

/-- C15 as stated fails: a responder in the data phase that receives the byte
0xA5 over eight edges and stores it on the ninth is afterwards still in
`MINION_SEND_RECEIVE_DATA`, not in `MINION_IDLE`. -/
theorem C15_responder_stays_in_data_phase :
    (Minion_run receivingResponder (dataPhaseSamples 0xA5)).oldDataBuffer.getD 0 0 = 0xA5 ∧
    (Minion_run receivingResponder (dataPhaseSamples 0xA5)).oldDataIndex = 1 ∧
    (Minion_run receivingResponder (dataPhaseSamples 0xA5)).bitIndex = 0 ∧
    (Minion_run receivingResponder (dataPhaseSamples 0xA5)).minionState
      = MINION_SEND_RECEIVE_DATA ∧
    (Minion_run receivingResponder (dataPhaseSamples 0xA5)).minionState ≠ MINION_IDLE := by
  decide

/-- C15 amended: after the edge that ends a data phase (cursor at 8 or more,
non-idle sample: the completed byte is stored and `bitIndex` reset) the
responder is still in `MINION_SEND_RECEIVE_DATA` with a cleared receive
buffer, ready for the next byte; it is an equal-lines sample that returns it
to `MINION_IDLE`. -/
theorem C15_data_phase_restarts (s : Minion) (idr idle : Nat)
    (hi : receivedBitPositive idr ≠ receivedBitNegative idr)
    (hs : s.minionState = MINION_SEND_RECEIVE_DATA) (hk : ¬ s.bitIndex < 8)
    (hidle : receivedBitPositive idle = receivedBitNegative idle) :
    (Minion_Clock_Handle s idr).minionState = MINION_SEND_RECEIVE_DATA ∧
    (Minion_Clock_Handle s idr).bitIndex = 0 ∧
    (Minion_Clock_Handle s idr).rxData = List.replicate 8 0 ∧
    (Minion_Clock_Handle (Minion_Clock_Handle s idr) idle).minionState = MINION_IDLE := by
  refine ⟨?_, ?_, ?_, ?_⟩
  · simp only [Minion_Clock_Handle, if_neg hi, hs, Minion_dataCase_minionState]
  · simp only [Minion_Clock_Handle, if_neg hi, hs, Minion_dataCase, if_neg hk]
  · simp only [Minion_Clock_Handle, if_neg hi, hs, Minion_dataCase, if_neg hk]
  · rw [Minion_Clock_Handle_idle _ idle hidle]

/-- Witness of the amended C15: the responder after eight received bits. -/
theorem C15_data_phase_restarts_witness :
    receivedBitPositive (lineSample 0) ≠ receivedBitNegative (lineSample 0) ∧
    ({ receivingResponder with bitIndex := 8 } : Minion).minionState
      = MINION_SEND_RECEIVE_DATA ∧
    ¬ ({ receivingResponder with bitIndex := 8 } : Minion).bitIndex < 8 ∧
    receivedBitPositive 0 = receivedBitNegative 0 ∧
    (Minion_Clock_Handle { receivingResponder with bitIndex := 8 } (lineSample 0)).minionState
      = MINION_SEND_RECEIVE_DATA ∧
    (Minion_Clock_Handle { receivingResponder with bitIndex := 8 } (lineSample 0)).bitIndex
      = 0 ∧
    (Minion_Clock_Handle { receivingResponder with bitIndex := 8 } (lineSample 0)).rxData
      = List.replicate 8 0 ∧
    (Minion_Clock_Handle
      (Minion_Clock_Handle { receivingResponder with bitIndex := 8 } (lineSample 0))
      0).minionState = MINION_IDLE :=
  ⟨by decide, rfl, by decide, by decide,
    C15_data_phase_restarts { receivingResponder with bitIndex := 8 } (lineSample 0) 0
      (by decide) rfl (by decide) (by decide)⟩

/-! ## Controller: payload copy of `Master_StartTransmission` (C19) -/

/-- C19, the code at the input txData = 0x41, 0x00, 0x07, address 3,
dataLength 3: `strncpy` stops at the 0x00 byte, so `txDataBuffer` starts
0x41, 0x00, 0x00 and the third payload byte 0x07 is lost; `Master_LoadData`,
which copies the same buffer with `memcpy`, stores 0x41, 0x00, 0x07.  The
other effects of the call are as the claim states. -/
theorem C19_payload_cut_at_zero_byte :
    (Master_StartTransmission Master.initial [0x41, 0x00, 0x07] [0] 3 3).map
      (fun s => (s.txDataBuffer.take 3, s.rxDataBuffer, s.masterAddress, s.bitPosition,
        s.arbitrationLost, s.masterState))
      = some ([0x41, 0x00, 0x00], [0, 0, 0, 0, 0, 0, 0, 0], 3, 0, false,
        MASTER_START_SEQUENCE) ∧
    (Master_LoadData Master.initial [0x41, 0x00, 0x07] 3).map
      (fun s => s.txDataBuffer.take 3) = some [0x41, 0x00, 0x07] := by
  decide

/-! ## Second implementation: reading the received byte (C18) -/

/-- C18, the code at the input B = 0xA5: after `EXTI2_IRQHandler` has
processed the eight bits of 0xA5, most significant first, from `rx_index = 0`
and a zeroed buffer, the byte is in `rx_buffer[0]` and `rx_index` is 8, and
`Protocol_Minion_ReadByte` returns `rx_buffer[rx_index - 1] = rx_buffer[7]`,
which is 0x00 and not 0xA5. -/
theorem C18_read_byte_reads_wrong_element :
    (byteBits 0xA5).map protocolSample = [1, 2, 1, 2, 2, 1, 2, 1] ∧
    (Protocol_Minion_run ProtocolMinion.initial
      ((byteBits 0xA5).map protocolSample)).rx_buffer.getD 0 0 = 0xA5 ∧
    (Protocol_Minion_run ProtocolMinion.initial
      ((byteBits 0xA5).map protocolSample)).rx_index = 8 ∧
    Protocol_Minion_ReadByte
      (Protocol_Minion_run ProtocolMinion.initial ((byteBits 0xA5).map protocolSample))
      = some 0x00 := by
  decide!

/-! ## Controller: the arbitration-loss flag (C16) -/

/-- One clock edge keeps the relation between flag and state: the flag is set
only in `MASTER_ARB_LOST` or `MASTER_IDLE`. -/
theorem Master_Clock_Handle_flag (s : Master) (idr : Nat) (a : Bool)
    (h : s.arbitrationLost = true →
      s.masterState = MASTER_ARB_LOST ∨ s.masterState = MASTER_IDLE) :
    (Master_Clock_Handle s idr a).arbitrationLost = true →
      (Master_Clock_Handle s idr a).masterState = MASTER_ARB_LOST ∨
      (Master_Clock_Handle s idr a).masterState = MASTER_IDLE := by
  unfold Master_Clock_Handle
  by_cases hi : receivedBitPositive idr = receivedBitNegative idr
  · simp only [hi, if_true]
    split <;> rename_i heq <;> simp only [heq] at h
    · simp only [Master_SendBit]; split_ifs <;> simp_all
    · simp only [Master_SendBit, Master_Arbitration]; split_ifs <;> simp_all
    · simp only [Master_Minion_SendBit]; split_ifs <;> simp_all
    · simp_all
    · simp
    · simp_all
    · simp_all
  · simp only [hi, if_false]
    split <;> rename_i heq <;> simp only [heq] at h
    · simp only [Master_SendBit]; split_ifs <;> simp_all
    · simp only [Master_SendBit, Master_Arbitration]; split_ifs <;> simp_all
    · simp only [Master_Minion_SendBit]; split_ifs <;> simp_all
    · simp_all
    · simp
    · simp_all
    · simp_all

/-- Function `Master_StartTransmission` clears the flag. -/
theorem Master_StartTransmission_flag (s s' : Master) (txData rxData : List Nat)
    (address dataLength : Nat)
    (h : Master_StartTransmission s txData rxData address dataLength = some s') :
    s'.arbitrationLost = false := by
  unfold Master_StartTransmission at h
  cases hc : strncpy s.txDataBuffer txData dataLength with
  | none => simp [hc] at h
  | some t =>
    simp only [hc, Option.map_some', Option.some.injEq] at h
    rw [← h]

/-- The relation between flag and state holds along every sequence of
events. -/
theorem Master_exec_flag (es : List MasterEvent) :
    ∀ s t : Master,
      (s.arbitrationLost = true →
        s.masterState = MASTER_ARB_LOST ∨ s.masterState = MASTER_IDLE) →
      Master_exec s es = some t →
      t.arbitrationLost = true →
        t.masterState = MASTER_ARB_LOST ∨ t.masterState = MASTER_IDLE := by
  induction es with
  | nil =>
    intro s t h hex
    simp only [Master_exec, Option.some.injEq] at hex
    rw [← hex]
    exact h
  | cons e es ih =>
    intro s t h hex
    cases e with
    | edge idr a =>
      simp only [Master_exec] at hex
      exact ih _ t (Master_Clock_Handle_flag s idr a h) hex
    | start tx rx addr len =>
      simp only [Master_exec] at hex
      cases hst : Master_StartTransmission s tx rx addr len with
      | none => simp [hst] at hex
      | some u =>
        rw [hst] at hex
        have hu := Master_StartTransmission_flag s u tx rx addr len hst
        exact ih u t (fun hf => by rw [hu] at hf; exact Bool.noConfusion hf) hex

/-- C16 as stated fails: a controller started for address 5 that loses
arbitration on its first 1 bit is, one edge after the loss, in `MASTER_IDLE`
with `arbitrationLost` still true. -/
theorem C16_flag_survives_arb_lost :
    ∃ a, contender 5 = some a ∧
      (Master_exec a lostTransaction).map (fun s => (s.masterState, s.arbitrationLost))
        = some (MASTER_IDLE, true) :=
  ⟨_, rfl, by decide⟩

/-- C16 amended: in every state reachable from a `Master_StartTransmission`
call by any sequence of clock edges and further `Master_StartTransmission`
calls, `arbitrationLost` is true only if `masterState` is `MASTER_ARB_LOST`
or `MASTER_IDLE`: the flag set on the loss stays set when the controller
falls back to idle, until the next transaction is started. -/
theorem C16_flag_only_after_loss (s0 s1 s : Master) (txData rxData : List Nat)
    (address dataLength : Nat) (es : List MasterEvent)
    (hstart : Master_StartTransmission s0 txData rxData address dataLength = some s1)
    (hrun : Master_exec s1 es = some s) (hflag : s.arbitrationLost = true) :
    s.masterState = MASTER_ARB_LOST ∨ s.masterState = MASTER_IDLE := by
  have h1 := Master_StartTransmission_flag s0 s1 txData rxData address dataLength hstart
  exact Master_exec_flag es s1 s (fun hf => by rw [h1] at hf; exact Bool.noConfusion hf)
    hrun hflag

/-- Witness of the amended C16: the lost transaction for address 5, one edge
after the loss. -/
theorem C16_flag_only_after_loss_witness :
    ∃ a s, Master_StartTransmission Master.initial [0x41] [0] 5 1 = some a ∧
      Master_exec a lostTransaction = some s ∧ s.arbitrationLost = true ∧
      (s.masterState = MASTER_ARB_LOST ∨ s.masterState = MASTER_IDLE) :=
  ⟨_, _, rfl, rfl, by decide,
    C16_flag_only_after_loss Master.initial _ _ [0x41] [0] 5 1 lostTransaction rfl rfl
      (by decide)⟩

/-! ## Two controllers on a wired-AND bus (C11) -/

/-- Once in the data phase or the stop sequence a controller stays there,
whatever its inputs: it can no longer lose arbitration. -/
theorem Master_Clock_Handle_pastAddress (s : Master) (idr : Nat) (a : Bool)
    (h : s.masterState = MASTER_SEND_RECEIVE_DATA ∨ s.masterState = MASTER_STOP_SEQUENCE) :
    (Master_Clock_Handle s idr a).masterState = MASTER_SEND_RECEIVE_DATA ∨
    (Master_Clock_Handle s idr a).masterState = MASTER_STOP_SEQUENCE := by
  unfold Master_Clock_Handle
  by_cases hi : receivedBitPositive idr = receivedBitNegative idr
  · simp only [hi, if_true]
    split <;> rename_i heq <;> simp only [heq] at h
    · simp at h
    · simp at h
    · simp only [Master_Minion_SendBit]; split_ifs <;> simp_all
    · simp_all
    · simp at h
    · simp at h
    · rcases h with h | h <;> simp_all
  · simp only [hi, if_false]
    split <;> rename_i heq <;> simp only [heq] at h
    · simp at h
    · simp at h
    · simp only [Master_Minion_SendBit]; split_ifs <;> simp_all
    · simp_all
    · simp at h
    · simp at h
    · rcases h with h | h <;> simp_all

/-- The second controller of a lockstep pair stays past the address phase once
it is there. -/
theorem arbitrationRun_pastAddress (p : Master × Master) (n : Nat)
    (h : (arbitrationRun n p).2.masterState = MASTER_SEND_RECEIVE_DATA ∨
      (arbitrationRun n p).2.masterState = MASTER_STOP_SEQUENCE) (k : Nat) :
    (arbitrationRun (n + k) p).2.masterState = MASTER_SEND_RECEIVE_DATA ∨
    (arbitrationRun (n + k) p).2.masterState = MASTER_STOP_SEQUENCE := by
  induction k with
  | zero => exact h
  | succ k ih => exact Master_Clock_Handle_pastAddress _ _ _ ih

/-- C11: two controllers started by `Master_StartTransmission` for the
addresses `0b0000000101` and `0b0000000011` run in lockstep on a bus whose
sensed level is the AND of the driven bits.  The first is never in
`MASTER_ARB_LOST` during the first 13 edges; before edge 14 it is in
`MASTER_SEND_ADDRESS` at `bitPosition = 7`, where it drives 1 and the other
drives 0, and that edge takes it to `MASTER_ARB_LOST` with `arbitrationLost`
set.  The second is never in `MASTER_ARB_LOST`, after any number of edges, and
is in `MASTER_SEND_RECEIVE_DATA` after its address phase (17 edges). -/
theorem C11_two_controller_arbitration :
    contender 5 = some (startedFor 5) ∧ contender 3 = some (startedFor 3) ∧
    (∀ n : Fin 14,
      (arbitrationRun n (startedFor 5, startedFor 3)).1.masterState ≠ MASTER_ARB_LOST) ∧
    (arbitrationRun 13 (startedFor 5, startedFor 3)).1.masterState = MASTER_SEND_ADDRESS ∧
    (arbitrationRun 13 (startedFor 5, startedFor 3)).1.bitPosition = 7 ∧
    Master_sends (arbitrationRun 13 (startedFor 5, startedFor 3)).1 = [1] ∧
    Master_sends (arbitrationRun 13 (startedFor 5, startedFor 3)).2 = [0] ∧
    (arbitrationRun 14 (startedFor 5, startedFor 3)).1.masterState = MASTER_ARB_LOST ∧
    (arbitrationRun 14 (startedFor 5, startedFor 3)).1.arbitrationLost = true ∧
    (∀ n : Nat,
      (arbitrationRun n (startedFor 5, startedFor 3)).2.masterState ≠ MASTER_ARB_LOST) ∧
    (arbitrationRun 17 (startedFor 5, startedFor 3)).2.masterState
      = MASTER_SEND_RECEIVE_DATA := by
  refine ⟨rfl, rfl, by decide, by decide, by decide, by decide, by decide,
    by decide, by decide, ?_, by decide⟩
  intro n
  by_cases hn : n < 17
  · interval_cases n <;> decide
  · obtain ⟨k, rfl⟩ : ∃ k, n = 17 + k := ⟨n - 17, by omega⟩
    have h17 : (arbitrationRun 17 (startedFor 5, startedFor 3)).2.masterState
        = MASTER_SEND_RECEIVE_DATA := by decide
    rcases arbitrationRun_pastAddress (startedFor 5, startedFor 3) 17 (Or.inl h17) k
      with h | h <;> rw [h] <;> decide

/-! ## Bit cursors: bound and reset (C21, C22) -/

/-- One edge of the responder keeps `bitIndex` at most 10. -/
theorem Minion_Clock_Handle_bitIndex_le (s : Minion) (idr : Nat) (h : s.bitIndex ≤ 10) :
    (Minion_Clock_Handle s idr).bitIndex ≤ 10 := by
  have hd : ∀ (u : Minion) (b : Nat), u.bitIndex ≤ 10 → (Minion_dataCase u b).bitIndex ≤ 10 := by
    intro u b hu
    simp only [Minion_dataCase, Minion_SendBit]
    split_ifs <;> simp <;> omega
  by_cases hi : receivedBitPositive idr = receivedBitNegative idr
  · rw [Minion_Clock_Handle_idle s idr hi]; exact h
  · cases hs : s.minionState
    · simp only [Minion_Clock_Handle, if_neg hi, hs]; exact h
    · simp only [Minion_Clock_Handle, if_neg hi, hs]
      split_ifs
      · simp; omega
      · simp
      · simp
    · simp only [Minion_Clock_Handle, if_neg hi, hs]
      split_ifs
      · simp; omega
      · simp
    · simp only [Minion_Clock_Handle, if_neg hi, hs]
      exact hd _ _ h
    · simp only [Minion_Clock_Handle, if_neg hi, hs]
      exact hd _ _ h

/-- One edge of the controller keeps `bitPosition` and `bitIndex` at most
10. -/
theorem Master_Clock_Handle_cursors_le (s : Master) (idr : Nat) (a : Bool) :
    (s.bitPosition ≤ 10 → (Master_Clock_Handle s idr a).bitPosition ≤ 10) ∧
    (s.bitIndex ≤ 10 → (Master_Clock_Handle s idr a).bitIndex ≤ 10) := by
  unfold Master_Clock_Handle
  by_cases hi : receivedBitPositive idr = receivedBitNegative idr
  · simp only [hi, if_true]
    split
    · simp only [Master_SendBit]; split_ifs <;> simp <;> omega
    · simp only [Master_SendBit, Master_Arbitration]; split_ifs <;> simp <;> omega
    · simp only [Master_Minion_SendBit]; split_ifs <;> simp <;> omega
    · simp
    · simp
    · simp
    · simp
  · simp only [hi, if_false]
    split
    · simp only [Master_SendBit]; split_ifs <;> simp <;> omega
    · simp only [Master_SendBit, Master_Arbitration]; split_ifs <;> simp <;> omega
    · simp only [Master_Minion_SendBit]; split_ifs <;> simp <;> omega
    · simp
    · simp
    · simp
    · simp

/-- Function `Master_StartTransmission` sets `bitPosition` to 0 and leaves
`bitIndex`. -/
theorem Master_StartTransmission_cursors (s s' : Master) (txData rxData : List Nat)
    (address dataLength : Nat)
    (h : Master_StartTransmission s txData rxData address dataLength = some s') :
    s'.bitPosition = 0 ∧ s'.bitIndex = s.bitIndex := by
  unfold Master_StartTransmission at h
  cases hc : strncpy s.txDataBuffer txData dataLength with
  | none => simp [hc] at h
  | some t =>
    simp only [hc, Option.map_some', Option.some.injEq] at h
    rw [← h]
    exact ⟨rfl, rfl⟩

/-- Both cursors of the controller stay at most 10 along every sequence of
edges and `Master_StartTransmission` calls. -/
theorem Master_exec_cursors_le (es : List MasterEvent) :
    ∀ s t : Master, s.bitPosition ≤ 10 → s.bitIndex ≤ 10 → Master_exec s es = some t →
      t.bitPosition ≤ 10 ∧ t.bitIndex ≤ 10 := by
  induction es with
  | nil =>
    intro s t h1 h2 hex
    simp only [Master_exec, Option.some.injEq] at hex
    rw [← hex]
    exact ⟨h1, h2⟩
  | cons e es ih =>
    intro s t h1 h2 hex
    cases e with
    | edge idr a =>
      simp only [Master_exec] at hex
      exact ih _ t ((Master_Clock_Handle_cursors_le s idr a).1 h1)
        ((Master_Clock_Handle_cursors_le s idr a).2 h2) hex
    | start tx rx addr len =>
      simp only [Master_exec] at hex
      cases hst : Master_StartTransmission s tx rx addr len with
      | none => simp [hst] at hex
      | some u =>
        rw [hst] at hex
        obtain ⟨u1, u2⟩ := Master_StartTransmission_cursors s u tx rx addr len hst
        exact ih u t (by rw [u1]; decide) (by rw [u2]; exact h2) hex

/-- The responder's cursor stays at most 10 over every sequence of edges. -/
theorem Minion_run_bitIndex_le (idrs : List Nat) :
    ∀ s : Minion, s.bitIndex ≤ 10 → (Minion_run s idrs).bitIndex ≤ 10 := by
  induction idrs with
  | nil => intro s h; exact h
  | cons x xs ih =>
    intro s h
    exact ih _ (Minion_Clock_Handle_bitIndex_le s x h)

/-- C21: cursor bound invariant.  For every state and every sample, a cursor
that is at most 10 before a clock edge is at most 10 after it: the responder's
`bitIndex`, the controller's `bitPosition` and the controller's data-phase
`bitIndex`.  Hence from initialisation the cursors stay within 0..10: for the
responder after `Minion_Init` under every sequence of edges, for the
controller from its initial state under every sequence of edges and
`Master_StartTransmission` calls. -/
theorem C21_cursor_bound :
    (∀ (s : Minion) (idr : Nat), s.bitIndex ≤ 10 → (Minion_Clock_Handle s idr).bitIndex ≤ 10) ∧
    (∀ (s : Master) (idr : Nat) (a : Bool), s.bitPosition ≤ 10 →
      (Master_Clock_Handle s idr a).bitPosition ≤ 10) ∧
    (∀ (s : Master) (idr : Nat) (a : Bool), s.bitIndex ≤ 10 →
      (Master_Clock_Handle s idr a).bitIndex ≤ 10) ∧
    (∀ (s0 : Minion) (address : Nat) (idrs : List Nat),
      (Minion_run (Minion_Init s0 address) idrs).bitIndex ≤ 10) ∧
    (∀ (es : List MasterEvent) (t : Master), Master_exec Master.initial es = some t →
      t.bitPosition ≤ 10 ∧ t.bitIndex ≤ 10) :=
  ⟨Minion_Clock_Handle_bitIndex_le,
    fun s idr a => (Master_Clock_Handle_cursors_le s idr a).1,
    fun s idr a => (Master_Clock_Handle_cursors_le s idr a).2,
    fun s0 address idrs => Minion_run_bitIndex_le idrs (Minion_Init s0 address) (Nat.zero_le 10),
    fun es t h => Master_exec_cursors_le es Master.initial t (Nat.zero_le 10) (Nat.zero_le 10) h⟩

/-- Witness of C21: a responder in the middle of a byte, a controller in its
address phase, and the controller's initial state run through a transaction
that loses arbitration. -/
theorem C21_cursor_bound_witness :
    midByteResponder.bitIndex ≤ 10 ∧
    (Minion_Clock_Handle midByteResponder (lineSample 1)).bitIndex ≤ 10 ∧
    arbitratingController.bitPosition ≤ 10 ∧
    (Master_Clock_Handle arbitratingController (lineSample 1) false).bitPosition ≤ 10 ∧
    arbitratingController.bitIndex ≤ 10 ∧
    (Master_Clock_Handle arbitratingController (lineSample 1) false).bitIndex ≤ 10 ∧
    ∃ t, Master_exec Master.initial (MasterEvent.start [0x41] [0] 5 1 :: lostTransaction)
        = some t ∧ t.bitPosition ≤ 10 ∧ t.bitIndex ≤ 10 :=
  ⟨by decide, C21_cursor_bound.1 midByteResponder (lineSample 1) (by decide),
    by decide, C21_cursor_bound.2.1 arbitratingController (lineSample 1) false (by decide),
    by decide, C21_cursor_bound.2.2.1 arbitratingController (lineSample 1) false (by decide),
    _, rfl, C21_cursor_bound.2.2.2.2
      (MasterEvent.start [0x41] [0] 5 1 :: lostTransaction) _ rfl⟩

/-- C22 as stated fails: the edge that takes the controller with address
`0b0000000101` from `MASTER_SEND_ADDRESS` to `MASTER_ARB_LOST` leaves
`bitPosition` at 8, and the equal-lines sample that forces the responder from
`MINION_SEND_RECEIVE_DATA` to `MINION_IDLE` leaves `bitIndex` at 3. -/
theorem C22_cursor_not_reset_on_abort :
    (arbitratingController.masterState = MASTER_SEND_ADDRESS ∧
      (Master_Clock_Handle arbitratingController (lineSample 1) false).masterState
        = MASTER_ARB_LOST ∧
      (Master_Clock_Handle arbitratingController (lineSample 1) false).bitPosition = 8) ∧
    (midByteResponder.minionState = MINION_SEND_RECEIVE_DATA ∧
      (Minion_Clock_Handle midByteResponder 48).minionState = MINION_IDLE ∧
      (Minion_Clock_Handle midByteResponder 48).bitIndex = 3) := by
  decide

/-- State changes of the controller and their cursors: on the edges that
complete a phase the cursor of that phase is 0 afterwards; the edge into
`MASTER_ARB_LOST` leaves `bitPosition` incremented and the edge into
`MASTER_IDLE` leaves both cursors as they were. -/
theorem Master_Clock_Handle_transition (s : Master) (idr : Nat) (a : Bool)
    (hch : (Master_Clock_Handle s idr a).masterState ≠ s.masterState) :
    ((Master_Clock_Handle s idr a).masterState = MASTER_SEND_ADDRESS →
      (Master_Clock_Handle s idr a).bitPosition = 0) ∧
    ((Master_Clock_Handle s idr a).masterState = MASTER_SEND_RECEIVE_DATA →
      (Master_Clock_Handle s idr a).bitPosition = 0) ∧
    ((Master_Clock_Handle s idr a).masterState = MASTER_STOP_SEQUENCE →
      (Master_Clock_Handle s idr a).bitIndex = 0) ∧
    ((Master_Clock_Handle s idr a).masterState = MASTER_ARB_LOST →
      (Master_Clock_Handle s idr a).bitPosition = s.bitPosition + 1) ∧
    ((Master_Clock_Handle s idr a).masterState = MASTER_IDLE →
      (Master_Clock_Handle s idr a).bitPosition = s.bitPosition ∧
      (Master_Clock_Handle s idr a).bitIndex = s.bitIndex) := by
  unfold Master_Clock_Handle at hch ⊢
  by_cases hi : receivedBitPositive idr = receivedBitNegative idr
  · simp only [hi, if_true] at hch ⊢
    split at hch <;> rename_i heq <;> simp only [heq] at hch ⊢
    · simp only [Master_SendBit] at hch ⊢; split_ifs at hch ⊢ <;> simp_all
    · simp only [Master_SendBit, Master_Arbitration] at hch ⊢
      split_ifs at hch ⊢ <;> simp_all
      omega
    · simp only [Master_Minion_SendBit] at hch ⊢; split_ifs at hch ⊢ <;> simp_all
    · simp_all
    · simp_all
    · simp_all
    · simp_all
  · simp only [hi, if_false] at hch ⊢
    split at hch <;> rename_i heq <;> simp only [heq] at hch ⊢
    · simp only [Master_SendBit] at hch ⊢; split_ifs at hch ⊢ <;> simp_all
    · simp only [Master_SendBit, Master_Arbitration] at hch ⊢
      split_ifs at hch ⊢ <;> simp_all
      omega
    · simp only [Master_Minion_SendBit] at hch ⊢; split_ifs at hch ⊢ <;> simp_all
    · simp_all
    · simp_all
    · simp_all
    · simp_all

/-- State changes of the responder and its cursor: an equal-lines sample
forces `MINION_IDLE` and leaves `bitIndex`; with a non-idle sample the edges
that complete the start pattern or the address reset `bitIndex` to 0, and the
edge taken in `MINION_SELECTED` enters the data phase and already transfers a
bit. -/
theorem Minion_Clock_Handle_transition (s : Minion) (idr : Nat)
    (hch : (Minion_Clock_Handle s idr).minionState ≠ s.minionState) :
    (receivedBitPositive idr = receivedBitNegative idr →
      (Minion_Clock_Handle s idr).minionState = MINION_IDLE ∧
      (Minion_Clock_Handle s idr).bitIndex = s.bitIndex) ∧
    (receivedBitPositive idr ≠ receivedBitNegative idr → s.minionState ≠ MINION_SELECTED →
      (Minion_Clock_Handle s idr).bitIndex = 0 ∧
      ((Minion_Clock_Handle s idr).minionState = MINION_LISTEN_ADDRESS ∨
        (Minion_Clock_Handle s idr).minionState = MINION_SELECTED)) ∧
    (receivedBitPositive idr ≠ receivedBitNegative idr → s.minionState = MINION_SELECTED →
      (Minion_Clock_Handle s idr).minionState = MINION_SEND_RECEIVE_DATA ∧
      (Minion_Clock_Handle s idr).bitIndex = if s.bitIndex < 8 then s.bitIndex + 1 else 0) := by
  refine ⟨fun hi => ?_, fun hi hsel => ?_, fun hi hsel => ?_⟩
  · rw [Minion_Clock_Handle_idle s idr hi]
    exact ⟨rfl, rfl⟩
  · cases hs : s.minionState
    · rw [Minion_Clock_Handle_of_idle s idr hs] at hch
      exact absurd rfl hch
    · by_cases hk : s.bitIndex < 5
      · rw [Minion_Clock_Handle_listenStart s idr hi hs hk] at hch
        split_ifs at hch <;> exact absurd rfl hch
      · rw [Minion_Clock_Handle_listenStart_done s idr hi hs hk]
        exact ⟨rfl, Or.inl rfl⟩
    · by_cases hk : s.bitIndex < 10
      · rw [Minion_Clock_Handle_listenAddress s idr hi hs hk] at hch
        exact absurd rfl hch
      · rw [Minion_Clock_Handle_listenAddress_done s idr hi hs hk]
        exact ⟨rfl, Or.inr rfl⟩
    · exact absurd hs hsel
    · have hst : (Minion_Clock_Handle s idr).minionState = MINION_SEND_RECEIVE_DATA := by
        simp only [Minion_Clock_Handle, if_neg hi, hs, Minion_dataCase_minionState]
      rw [hst, hs] at hch
      exact absurd rfl hch
  · constructor
    · simp only [Minion_Clock_Handle, if_neg hi, hsel, Minion_dataCase_minionState]
    · simp only [Minion_Clock_Handle, if_neg hi, hsel, Minion_dataCase, Minion_SendBit]
      split_ifs <;> simp <;> omega

/-- C22 amended: a clock edge that completes a phase and moves the node to the
next one leaves the cursor of the completed phase at 0: the controller's
`bitPosition` on entering `MASTER_SEND_ADDRESS` and `MASTER_SEND_RECEIVE_DATA`,
its `bitIndex` on entering `MASTER_STOP_SEQUENCE`, the responder's `bitIndex`
on entering `MINION_LISTEN_ADDRESS` and `MINION_SELECTED`.  The other state
changes do not reset the cursor: the edge into `MASTER_ARB_LOST` leaves
`bitPosition` incremented by one, the edge into `MASTER_IDLE` and the forced
move to `MINION_IDLE` on an equal-lines sample leave the cursor as it was, and
the edge taken in `MINION_SELECTED` enters the data phase having already
transferred a bit. -/
theorem C22_cursor_reset_on_phase_completion :
    (∀ (s : Master) (idr : Nat) (a : Bool),
      (Master_Clock_Handle s idr a).masterState ≠ s.masterState →
      ((Master_Clock_Handle s idr a).masterState = MASTER_SEND_ADDRESS →
        (Master_Clock_Handle s idr a).bitPosition = 0) ∧
      ((Master_Clock_Handle s idr a).masterState = MASTER_SEND_RECEIVE_DATA →
        (Master_Clock_Handle s idr a).bitPosition = 0) ∧
      ((Master_Clock_Handle s idr a).masterState = MASTER_STOP_SEQUENCE →
        (Master_Clock_Handle s idr a).bitIndex = 0) ∧
      ((Master_Clock_Handle s idr a).masterState = MASTER_ARB_LOST →
        (Master_Clock_Handle s idr a).bitPosition = s.bitPosition + 1) ∧
      ((Master_Clock_Handle s idr a).masterState = MASTER_IDLE →
        (Master_Clock_Handle s idr a).bitPosition = s.bitPosition ∧
        (Master_Clock_Handle s idr a).bitIndex = s.bitIndex)) ∧
    (∀ (s : Minion) (idr : Nat),
      (Minion_Clock_Handle s idr).minionState ≠ s.minionState →
      (receivedBitPositive idr = receivedBitNegative idr →
        (Minion_Clock_Handle s idr).minionState = MINION_IDLE ∧
        (Minion_Clock_Handle s idr).bitIndex = s.bitIndex) ∧
      (receivedBitPositive idr ≠ receivedBitNegative idr → s.minionState ≠ MINION_SELECTED →
        (Minion_Clock_Handle s idr).bitIndex = 0 ∧
        ((Minion_Clock_Handle s idr).minionState = MINION_LISTEN_ADDRESS ∨
          (Minion_Clock_Handle s idr).minionState = MINION_SELECTED)) ∧
      (receivedBitPositive idr ≠ receivedBitNegative idr → s.minionState = MINION_SELECTED →
        (Minion_Clock_Handle s idr).minionState = MINION_SEND_RECEIVE_DATA ∧
        (Minion_Clock_Handle s idr).bitIndex = if s.bitIndex < 8 then s.bitIndex + 1 else 0)) :=
  ⟨Master_Clock_Handle_transition, Minion_Clock_Handle_transition⟩

/-- Witness of the amended C22: the controller's edge from
`MASTER_SEND_ADDRESS` (cursor 10) into `MASTER_SEND_RECEIVE_DATA`, and the
responder's edge from `MINION_LISTEN_ADDRESS` (cursor 10) into
`MINION_SELECTED`. -/
theorem C22_cursor_reset_on_phase_completion_witness :
    ((Master_Clock_Handle { busyController with bitPosition := 10 } (lineSample 1) true).masterState
        ≠ ({ busyController with bitPosition := 10 } : Master).masterState ∧
      (Master_Clock_Handle { busyController with bitPosition := 10 } (lineSample 1) true).masterState
        = MASTER_SEND_RECEIVE_DATA ∧
      (Master_Clock_Handle { busyController with bitPosition := 10 } (lineSample 1) true).bitPosition
        = 0) ∧
    ((Minion_Clock_Handle { listeningResponder 5 with bitIndex := 10 } (lineSample 1)).minionState
        ≠ ({ listeningResponder 5 with bitIndex := 10 } : Minion).minionState ∧
      receivedBitPositive (lineSample 1) ≠ receivedBitNegative (lineSample 1) ∧
      ({ listeningResponder 5 with bitIndex := 10 } : Minion).minionState ≠ MINION_SELECTED ∧
      (Minion_Clock_Handle { listeningResponder 5 with bitIndex := 10 } (lineSample 1)).bitIndex
        = 0) :=
  ⟨⟨by decide, by decide,
      (C22_cursor_reset_on_phase_completion.1 { busyController with bitPosition := 10 }
        (lineSample 1) true (by decide)).2.1 (by decide)⟩,
    ⟨by decide, by decide, by decide,
      ((C22_cursor_reset_on_phase_completion.2 { listeningResponder 5 with bitIndex := 10 }
        (lineSample 1) (by decide)).2.1 (by decide) (by decide)).1⟩⟩

/-! ## Responder: missed start pattern (C25) -/

/-- C25: the start-pattern recognizer can miss a genuine start pattern.  The
samples 1,1,1,0,0,1 contain 1,1,0,0,1 as their last five, yet a responder that
starts in `MINION_LISTEN_START` with `bitIndex = 0` is still in
`MINION_LISTEN_START` after them and after one further sample, whatever that
sample is (no seventh edge enters `MINION_LISTEN_ADDRESS`): the third sample,
which mismatches, resets `bitIndex` to 0 and is not re-tested as the first
pattern bit.  The same five samples without the leading 1 are recognised. -/
theorem C25_start_pattern_can_be_missed :
    [1, 1, 1, 0, 0, 1].drop 1 = startPattern ∧
    startListener.minionState = MINION_LISTEN_START ∧ startListener.bitIndex = 0 ∧
    (Minion_run startListener ([1, 1].map lineSample)).bitIndex = 2 ∧
    (Minion_run startListener ([1, 1, 1].map lineSample)).bitIndex = 0 ∧
    (Minion_run startListener ([1, 1, 1, 0, 0, 1].map lineSample)).minionState
      = MINION_LISTEN_START ∧
    (Minion_run startListener ([1, 1, 1, 0, 0, 1, 0].map lineSample)).minionState
      = MINION_LISTEN_START ∧
    (Minion_run startListener ([1, 1, 1, 0, 0, 1, 1].map lineSample)).minionState
      = MINION_LISTEN_START ∧
    (∀ x : Nat,
      (Minion_Clock_Handle (Minion_run startListener ([1, 1, 1, 0, 0, 1].map lineSample))
        x).minionState ≠ MINION_LISTEN_ADDRESS) ∧
    (Minion_run startListener ([1, 1, 0, 0, 1, 1].map lineSample)).minionState
      = MINION_LISTEN_ADDRESS := by
  refine ⟨by decide, by decide, by decide, by decide, by decide, by decide, by decide,
    by decide, ?_, by decide⟩
  intro x hx
  have hb : (Minion_run startListener ([1, 1, 1, 0, 0, 1].map lineSample)).minionState
      ≠ MINION_LISTEN_ADDRESS := by decide
  have hk : (Minion_run startListener ([1, 1, 1, 0, 0, 1].map lineSample)).bitIndex < 5 := by
    decide
  exact (listenAddress_entered _ x hb hx).2 hk

/-! ## Responder: the data phase in full (C23) -/

theorem accumulate_snoc (bits : List Nat) :
    ∀ (rx k b : Nat), accumulate rx k (bits ++ [b]) =
      (accumulate rx k bits ||| (b <<< (7 - (k + bits.length)))) % 256 := by
  induction bits with
  | nil => intro rx k b; simp [accumulate]
  | cons c cs ih =>
    intro rx k b
    show accumulate ((rx ||| c <<< (7 - k)) % 256) (k + 1) (cs ++ [b]) = _
    have hlen : k + 1 + cs.length = k + (c :: cs).length := by
      simp only [List.length_cons]; omega
    rw [ih, hlen]
    rfl

/-- Or-ing eight bits into a cleared register, most significant first, gives
the number with these binary digits. -/
theorem accumulate_eq_bitsToByte_fin :
    ∀ r7 r6 r5 r4 r3 r2 r1 r0 : Fin 2,
      accumulate 0 0 [r7.val, r6.val, r5.val, r4.val, r3.val, r2.val, r1.val, r0.val] =
        bitsToByte [r7.val, r6.val, r5.val, r4.val, r3.val, r2.val, r1.val, r0.val] := by
  decide

theorem accumulate_eq_bitsToByte (r7 r6 r5 r4 r3 r2 r1 r0 : Nat)
    (h7 : r7 < 2) (h6 : r6 < 2) (h5 : r5 < 2) (h4 : r4 < 2)
    (h3 : r3 < 2) (h2 : r2 < 2) (h1 : r1 < 2) (h0 : r0 < 2) :
    accumulate 0 0 [r7, r6, r5, r4, r3, r2, r1, r0] =
      bitsToByte [r7, r6, r5, r4, r3, r2, r1, r0] :=
  accumulate_eq_bitsToByte_fin ⟨r7, h7⟩ ⟨r6, h6⟩ ⟨r5, h5⟩ ⟨r4, h4⟩ ⟨r3, h3⟩ ⟨r2, h2⟩
    ⟨r1, h1⟩ ⟨r0, h0⟩

theorem receivedBitPositive_lt_two (x : Nat) : receivedBitPositive x < 2 := by
  unfold receivedBitPositive
  rw [Nat.and_one_is_mod]
  omega

/-- An edge taken in `MINION_SELECTED` with a non-idle sample is the edge taken
in `MINION_SEND_RECEIVE_DATA`: the case falls through. -/
theorem Minion_Clock_Handle_selected (s : Minion) (x : Nat)
    (hi : receivedBitPositive x ≠ receivedBitNegative x)
    (hs : s.minionState = MINION_SELECTED) :
    Minion_Clock_Handle s x =
      Minion_Clock_Handle { s with minionState := MINION_SEND_RECEIVE_DATA } x := by
  simp only [Minion_Clock_Handle, if_neg hi, hs]

/-- Data-phase bit edges with arbitrary non-idle samples, from cursor `k`: the
bits of `txData[0]` from position `k` on are sent, the sampled positive-line
bits are accumulated in `rxData[0]`, and the log is not touched. -/
theorem Minion_run_dataEdges (xs : List Nat) :
    ∀ s : Minion, s.minionState = MINION_SEND_RECEIVE_DATA →
      s.bitIndex + xs.length ≤ 8 →
      (∀ x ∈ xs, receivedBitPositive x ≠ receivedBitNegative x) → 0 < s.rxData.length →
      (Minion_run s xs).minionState = MINION_SEND_RECEIVE_DATA ∧
      (Minion_run s xs).bitIndex = s.bitIndex + xs.length ∧
      (Minion_run s xs).rxData =
        s.rxData.set 0 (accumulate (s.rxData.getD 0 0) s.bitIndex
          (xs.map receivedBitPositive)) ∧
      (Minion_run s xs).txData = s.txData ∧
      (Minion_run s xs).oldDataBuffer = s.oldDataBuffer ∧
      (Minion_run s xs).oldDataIndex = s.oldDataIndex ∧
      (Minion_run s xs).txTrace = s.txTrace ++
        (List.range xs.length).map
          (fun j => (s.txData.getD 0 0 >>> (7 - (s.bitIndex + j))) &&& 1) := by
  induction xs using List.reverseRecOn with
  | nil =>
    intro s hs _ _ hrx
    refine ⟨hs, rfl, ?_, rfl, rfl, rfl, by simp [Minion_run]⟩
    cases hr : s.rxData with
    | nil => simp [hr] at hrx
    | cons a as => simp [Minion_run, accumulate, hr]
  | append_singleton xs x ih =>
    intro s hs hlen hni hrx
    have hlen' : s.bitIndex + xs.length + 1 ≤ 8 := by simpa [Nat.add_assoc] using hlen
    obtain ⟨g1, g2, g3, g4, g5, g6, g7⟩ := ih s hs (by omega)
      (fun y hy => hni y (List.mem_append_left _ hy)) hrx
    have hx : receivedBitPositive x ≠ receivedBitNegative x :=
      hni x (List.mem_append_right _ (List.mem_singleton_self x))
    have hk : (Minion_run s xs).bitIndex < 8 := by rw [g2]; omega
    have hstep := Minion_Clock_Handle_dataBit (Minion_run s xs) x hx g1 hk
    obtain ⟨f1, f2, -, f4, f5, -, -, f8⟩ := Minion_SendBit_fields (Minion_run s xs)
      (((Minion_run s xs).txData.getD 0 0 >>> (7 - (Minion_run s xs).bitIndex)) &&& 1)
    rw [Minion_run_snoc, hstep]
    refine ⟨f1.trans g1, ?_, ?_, f2.trans g4, f4.trans g5, f5.trans g6, ?_⟩
    · show (Minion_run s xs).bitIndex + 1 = _
      rw [g2, List.length_append, List.length_singleton, Nat.add_assoc]
    · show List.set (Minion_run s xs).rxData 0 _ = _
      rw [g3, g2, List.map_append, List.map_singleton, accumulate_snoc, List.length_map]
      cases hr : s.rxData with
      | nil => simp [hr] at hrx
      | cons a as => simp
    · show (Minion_SendBit (Minion_run s xs) _).txTrace = _
      rw [f8, g7, g4, g2, List.length_append, List.length_singleton, List.range_succ,
        List.map_append, List.map_singleton, List.append_assoc]

/-- A run that starts in `MINION_SELECTED` or `MINION_SEND_RECEIVE_DATA` with a
non-idle first sample is the run that starts in `MINION_SEND_RECEIVE_DATA`. -/
theorem Minion_run_selected (s : Minion) (x : Nat) (xs : List Nat)
    (hi : receivedBitPositive x ≠ receivedBitNegative x)
    (hs : s.minionState = MINION_SELECTED ∨ s.minionState = MINION_SEND_RECEIVE_DATA) :
    Minion_run s (x :: xs) =
      Minion_run { s with minionState := MINION_SEND_RECEIVE_DATA } (x :: xs) := by
  rcases hs with hs | hs
  · show Minion_run (Minion_Clock_Handle s x) xs = Minion_run (Minion_Clock_Handle _ x) xs
    rw [Minion_Clock_Handle_selected s x hi hs]
  · have hself : ({ s with minionState := MINION_SEND_RECEIVE_DATA } : Minion) = s := by
      cases s
      simp only [Minion.mk.injEq, and_true, true_and] at hs ⊢
      exact hs.symm
    rw [hself]

/-- The bit `(T >> n) & 1` is non-zero exactly when bit `n` of `T` is set. -/
theorem shiftRight_and_one_ne_zero (T n : Nat) :
    decide ((T >>> n) &&& 1 ≠ 0) = T.testBit n := by
  rw [Nat.testBit_to_div_mod, Nat.and_one_is_mod, Nat.shiftRight_eq_div_pow]
  by_cases h : T / 2 ^ n % 2 = 1
  · simp [h]
  · have h0 : T / 2 ^ n % 2 = 0 := by omega
    simp [h0]

/-- The bit `(T >> n) & 1` is zero exactly when bit `n` of `T` is clear. -/
theorem shiftRight_and_one_eq_zero (T n : Nat) :
    decide ((T >>> n) &&& 1 = 0) = !T.testBit n := by
  rw [Nat.testBit_to_div_mod, Nat.and_one_is_mod, Nat.shiftRight_eq_div_pow]
  by_cases h : T / 2 ^ n % 2 = 1
  · simp [h]
  · have h0 : T / 2 ^ n % 2 = 0 := by omega
    simp [h0]

/-- The output register after a data-phase bit edge: the edge taken after the
samples `xs` from cursor `k` leaves the register as written by the call
`Minion_SendBit((txData[0] >> (7 - (k + |xs|))) & 1)` made on that edge. -/
theorem Minion_run_dataEdges_odr (xs : List Nat) (x : Nat) (s : Minion)
    (hs : s.minionState = MINION_SEND_RECEIVE_DATA) (hlen : s.bitIndex + xs.length < 8)
    (hni : ∀ y ∈ xs, receivedBitPositive y ≠ receivedBitNegative y)
    (hx : receivedBitPositive x ≠ receivedBitNegative x) (hrx : 0 < s.rxData.length) :
    (Minion_run s (xs ++ [x])).GPIOB_ODR =
      (Minion_SendBit (Minion_run s xs)
        ((s.txData.getD 0 0 >>> (7 - (s.bitIndex + xs.length))) &&& 1)).GPIOB_ODR := by
  obtain ⟨g1, g2, -, g4, -, -, -⟩ := Minion_run_dataEdges xs s hs (by omega) hni hrx
  have hk : (Minion_run s xs).bitIndex < 8 := by rw [g2]; omega
  have hstep := Minion_Clock_Handle_dataBit (Minion_run s xs) x hx g1 hk
  rw [Minion_run_snoc, hstep]
  show (Minion_SendBit (Minion_run s xs) _).GPIOB_ODR = _
  rw [g4, g2]

/-- The output register after each of the first edges of a data phase entered
in `MINION_SELECTED` or `MINION_SEND_RECEIVE_DATA` with the cursor at 0: edge
`j` (counted from 0) leaves the register as written by the call
`Minion_SendBit((txData[0] >> (7 - j)) & 1)` made on that edge. -/
theorem Minion_run_selected_odr (s : Minion) (xs : List Nat) (j : Nat)
    (hs : s.minionState = MINION_SELECTED ∨ s.minionState = MINION_SEND_RECEIVE_DATA)
    (hk : s.bitIndex = 0) (hj : j < xs.length) (hj8 : j < 8)
    (hni : ∀ x ∈ xs, receivedBitPositive x ≠ receivedBitNegative x)
    (hrx : 0 < s.rxData.length) :
    (Minion_run s (xs.take (j + 1))).GPIOB_ODR =
      (Minion_SendBit
        (Minion_run { s with minionState := MINION_SEND_RECEIVE_DATA } (xs.take j))
        ((s.txData.getD 0 0 >>> (7 - j)) &&& 1)).GPIOB_ODR := by
  cases xs with
  | nil => simp at hj
  | cons x rest =>
    have hx : receivedBitPositive x ≠ receivedBitNegative x := hni x (by simp)
    have hcons : (x :: rest).take (j + 1) = x :: rest.take j := rfl
    have hsnoc : (x :: rest).take (j + 1) = (x :: rest).take j ++ [(x :: rest).getD j 0] := by
      rw [List.take_succ]
      simp [List.getD_eq_getElem?_getD, List.getElem?_eq_getElem hj]
    have hrun : Minion_run s ((x :: rest).take (j + 1)) =
        Minion_run { s with minionState := MINION_SEND_RECEIVE_DATA }
          ((x :: rest).take (j + 1)) := by
      rw [hcons]
      exact Minion_run_selected s x _ hx hs
    have hlt : ((x :: rest).take j).length = j := by
      rw [List.length_take]
      omega
    have h := Minion_run_dataEdges_odr ((x :: rest).take j) ((x :: rest).getD j 0)
      { s with minionState := MINION_SEND_RECEIVE_DATA } rfl
      (by show s.bitIndex + _ < 8; rw [hlt, hk]; omega)
      (fun y hy => hni y (List.mem_of_mem_take hy))
      (by
        apply hni
        rw [List.getD_eq_getElem?_getD, List.getElem?_eq_getElem hj]
        exact List.getElem_mem _)
      hrx
    rw [hrun, hsnoc, h, hlt]
    show (Minion_SendBit _ ((s.txData.getD 0 0 >>> (7 - (s.bitIndex + j))) &&& 1)).GPIOB_ODR = _
    rw [hk, Nat.zero_add]

/-- C23: the responder's data phase.  Starting in `MINION_SELECTED` or
`MINION_SEND_RECEIVE_DATA` with `bitIndex = 0` and `rxData[0] = 0`, for every
`txData[0] = T` and every eight non-idle samples, the eight edges send the
bits of `T`, most significant first: edge `j` (counted from 0) calls
`Minion_SendBit` with bit `7 - j` of `T` and leaves the transmit pair of the
output register carrying it, TX positive (bit 6) equal to that bit and TX
negative (bit 7) equal to its complement.  They leave `rxData[0]` equal to the
byte whose bits, most significant first, are the sampled positive-line bits; an
edge taken in `MINION_SELECTED` is the same edge taken in
`MINION_SEND_RECEIVE_DATA`, so it already transfers the first bit.  The ninth
edge stores that byte at `oldDataBuffer[oldDataIndex]`, increments the 8-bit
`oldDataIndex`, clears `rxData` and sets `bitIndex` to 0; it sends no bit and
leaves the output register as the eighth edge drove it. -/
theorem C23_responder_data_phase (s : Minion) (xs : List Nat) (x9 T : Nat)
    (hs : s.minionState = MINION_SELECTED ∨ s.minionState = MINION_SEND_RECEIVE_DATA)
    (hk : s.bitIndex = 0) (hrx0 : s.rxData.getD 0 0 = 0) (hrxlen : s.rxData.length = 8)
    (hT : s.txData.getD 0 0 = T) (hlen : xs.length = 8)
    (hni : ∀ x ∈ xs, receivedBitPositive x ≠ receivedBitNegative x)
    (hx9 : receivedBitPositive x9 ≠ receivedBitNegative x9) (hidx : s.oldDataIndex < 256) :
    (Minion_run s xs).txTrace = s.txTrace ++ byteBits T ∧
    (∀ j, j < 8 →
      txPositive (Minion_run s (xs.take (j + 1))).GPIOB_ODR = T.testBit (7 - j) ∧
      txNegative (Minion_run s (xs.take (j + 1))).GPIOB_ODR = !T.testBit (7 - j)) ∧
    (Minion_run s xs).rxData.getD 0 0 = bitsToByte (xs.map receivedBitPositive) ∧
    (∀ x, receivedBitPositive x ≠ receivedBitNegative x →
      Minion_Clock_Handle s x =
        Minion_Clock_Handle { s with minionState := MINION_SEND_RECEIVE_DATA } x) ∧
    (Minion_Clock_Handle (Minion_run s xs) x9).oldDataBuffer =
      s.oldDataBuffer.set s.oldDataIndex (bitsToByte (xs.map receivedBitPositive)) ∧
    (Minion_Clock_Handle (Minion_run s xs) x9).oldDataIndex = (s.oldDataIndex + 1) % 256 ∧
    (s.oldDataIndex < 255 →
      (Minion_Clock_Handle (Minion_run s xs) x9).oldDataIndex = s.oldDataIndex + 1) ∧
    (Minion_Clock_Handle (Minion_run s xs) x9).rxData = List.replicate 8 0 ∧
    (Minion_Clock_Handle (Minion_run s xs) x9).bitIndex = 0 ∧
    (Minion_Clock_Handle (Minion_run s xs) x9).txTrace = (Minion_run s xs).txTrace ∧
    (Minion_Clock_Handle (Minion_run s xs) x9).GPIOB_ODR = (Minion_run s xs).GPIOB_ODR := by
  have hsend : ∀ (u : Minion) (b : Nat),
      txPositive (Minion_SendBit u b).GPIOB_ODR = decide (b ≠ 0) ∧
      txNegative (Minion_SendBit u b).GPIOB_ODR = decide (b = 0) := by
    intro u b
    by_cases hb : b = 0
    · have hodr : (Minion_SendBit u b).GPIOB_ODR =
          (u.GPIOB_ODR &&& not32 (1 <<< TX_POS_PIN)) ||| (1 <<< TX_NEG_PIN) := by
        simp [Minion_SendBit, hb]
      rw [hodr]
      refine ⟨?_, ?_⟩
      · show Nat.testBit _ 6 = _
        rw [driveZero_testBit]
        simp [hb]
      · show Nat.testBit _ 7 = _
        rw [driveZero_testBit]
        simp [hb]
    · have hodr : (Minion_SendBit u b).GPIOB_ODR =
          (u.GPIOB_ODR ||| (1 <<< TX_POS_PIN)) &&& not32 (1 <<< TX_NEG_PIN) := by
        simp [Minion_SendBit, hb]
      rw [hodr]
      refine ⟨?_, ?_⟩
      · show Nat.testBit _ 6 = _
        rw [driveOne_testBit]
        simp [hb]
      · show Nat.testBit _ 7 = _
        rw [driveOne_testBit]
        simp [hb]
  have hpair : ∀ j, j < 8 →
      txPositive (Minion_run s (xs.take (j + 1))).GPIOB_ODR = T.testBit (7 - j) ∧
      txNegative (Minion_run s (xs.take (j + 1))).GPIOB_ODR = !T.testBit (7 - j) := by
    intro j hj
    obtain ⟨p1, p2⟩ := hsend
      (Minion_run { s with minionState := MINION_SEND_RECEIVE_DATA } (xs.take j))
      ((T >>> (7 - j)) &&& 1)
    rw [Minion_run_selected_odr s xs j hs hk (by omega) hj hni (by omega), hT, p1, p2,
      shiftRight_and_one_ne_zero, shiftRight_and_one_eq_zero]
    exact ⟨rfl, rfl⟩
  match xs, hlen, hni, hpair with
  | [x7, x6, x5, x4, x3, x2, x1, x0], _, hni, hpair =>
    have h7 : receivedBitPositive x7 ≠ receivedBitNegative x7 := hni x7 (by simp)
    rw [Minion_run_selected s x7 _ h7 hs]
    obtain ⟨g1, g2, g3, -, g5, g6, g7⟩ := Minion_run_dataEdges [x7, x6, x5, x4, x3, x2, x1, x0]
      { s with minionState := MINION_SEND_RECEIVE_DATA } rfl
      (by show s.bitIndex + 8 ≤ 8; omega) hni (by show 0 < s.rxData.length; omega)
    have hacc : accumulate (s.rxData.getD 0 0) s.bitIndex
        ([x7, x6, x5, x4, x3, x2, x1, x0].map receivedBitPositive) =
        bitsToByte ([x7, x6, x5, x4, x3, x2, x1, x0].map receivedBitPositive) := by
      rw [hrx0, hk]
      exact accumulate_eq_bitsToByte _ _ _ _ _ _ _ _
        (receivedBitPositive_lt_two x7) (receivedBitPositive_lt_two x6)
        (receivedBitPositive_lt_two x5) (receivedBitPositive_lt_two x4)
        (receivedBitPositive_lt_two x3) (receivedBitPositive_lt_two x2)
        (receivedBitPositive_lt_two x1) (receivedBitPositive_lt_two x0)
    have g3' : (Minion_run { s with minionState := MINION_SEND_RECEIVE_DATA }
        [x7, x6, x5, x4, x3, x2, x1, x0]).rxData = s.rxData.set 0
          (bitsToByte ([x7, x6, x5, x4, x3, x2, x1, x0].map receivedBitPositive)) := by
      rw [g3]
      show s.rxData.set 0 _ = _
      rw [hacc]
    have hget : (Minion_run { s with minionState := MINION_SEND_RECEIVE_DATA }
        [x7, x6, x5, x4, x3, x2, x1, x0]).rxData.getD 0 0 =
          bitsToByte ([x7, x6, x5, x4, x3, x2, x1, x0].map receivedBitPositive) := by
      rw [g3']
      cases hr : s.rxData with
      | nil => simp [hr] at hrxlen
      | cons a as => simp
    have hdone := Minion_Clock_Handle_dataDone _ x9 hx9 g1
      (by rw [g2]; show ¬ s.bitIndex + 8 < 8; omega)
      (by rw [g6]; show s.oldDataIndex < 1024; omega)
    refine ⟨?_, hpair, hget, ?_, ?_, ?_, ?_, ?_, ?_, ?_, ?_⟩
    · rw [g7]
      show s.txTrace ++ _ = _
      rw [hT, hk]
      simp [byteBits]
    · intro x hx
      rcases hs with hs | hs
      · exact Minion_Clock_Handle_selected s x hx hs
      · have hself : ({ s with minionState := MINION_SEND_RECEIVE_DATA } : Minion) = s := by
          cases s
          simp only [Minion.mk.injEq, and_true, true_and] at hs ⊢
          exact hs.symm
        rw [hself]
    · rw [hdone]
      show List.set _ _ _ = _
      rw [g5, g6, hget]
    · rw [hdone]
      show (_ + 1) % 256 = _
      rw [g6]
    · intro hlt
      rw [hdone]
      show (_ + 1) % 256 = _
      rw [g6]
      show (s.oldDataIndex + 1) % 256 = _
      omega
    · rw [hdone]
    · rw [hdone]
    · rw [hdone]
    · rw [hdone]

/-- Witness of C23: a selected responder loaded with 0x3C receives the bits of
0xA5.  The first edge drives bit 7 of 0x3C, a 0 (TX positive low, TX negative
high: the output register is `0x80`), and the third edge drives bit 5, a 1 (TX
positive high, TX negative low: the output register is `0x40`). -/
theorem C23_responder_data_phase_witness :
    (selectedResponder 0x3C).minionState = MINION_SELECTED ∧
    (selectedResponder 0x3C).bitIndex = 0 ∧
    (selectedResponder 0x3C).rxData.getD 0 0 = 0 ∧
    (selectedResponder 0x3C).txData.getD 0 0 = 0x3C ∧
    ((byteBits 0xA5).map lineSample).length = 8 ∧
    bitsToByte (((byteBits 0xA5).map lineSample).map receivedBitPositive) = 0xA5 ∧
    (Minion_run (selectedResponder 0x3C) ((byteBits 0xA5).map lineSample)).txTrace =
      (selectedResponder 0x3C).txTrace ++ byteBits 0x3C ∧
    txPositive (Minion_run (selectedResponder 0x3C)
      (((byteBits 0xA5).map lineSample).take 1)).GPIOB_ODR = false ∧
    txNegative (Minion_run (selectedResponder 0x3C)
      (((byteBits 0xA5).map lineSample).take 1)).GPIOB_ODR = true ∧
    txPositive (Minion_run (selectedResponder 0x3C)
      (((byteBits 0xA5).map lineSample).take 3)).GPIOB_ODR = true ∧
    txNegative (Minion_run (selectedResponder 0x3C)
      (((byteBits 0xA5).map lineSample).take 3)).GPIOB_ODR = false ∧
    (Minion_run (selectedResponder 0x3C)
      (((byteBits 0xA5).map lineSample).take 1)).GPIOB_ODR = 0x80 ∧
    (Minion_run (selectedResponder 0x3C)
      (((byteBits 0xA5).map lineSample).take 3)).GPIOB_ODR = 0x40 ∧
    (Minion_run (selectedResponder 0x3C) ((byteBits 0xA5).map lineSample)).rxData.getD 0 0 =
      bitsToByte (((byteBits 0xA5).map lineSample).map receivedBitPositive) :=
  have h := C23_responder_data_phase (selectedResponder 0x3C) ((byteBits 0xA5).map lineSample)
    (lineSample 0) 0x3C (Or.inl rfl) rfl (by decide) (by decide) (by decide) (by decide)
    (by decide) (by decide) (by decide)
  ⟨rfl, rfl, by decide, by decide, by decide, by decide, h.1,
    (h.2.1 0 (by decide)).1, (h.2.1 0 (by decide)).2,
    (h.2.1 2 (by decide)).1, (h.2.1 2 (by decide)).2, by decide, by decide, h.2.2.1⟩

/-! ## Second implementation: receive-buffer indexing (C26) -/

theorem set_getD_self (l : List Nat) : ∀ k : Nat, l.set k (l.getD k 0) = l := by
  induction l with
  | nil => intro k; rfl
  | cons a l ih =>
    intro k
    cases k with
    | zero => rfl
    | succ k =>
      show a :: l.set k (l.getD k 0) = a :: l
      rw [ih k]

theorem getD_set_self (l : List Nat) (k x : Nat) (h : k < l.length) :
    (l.set k x).getD k 0 = x := by
  simp [List.getD_eq_getElem?_getD, h]

theorem getD_set_ne (l : List Nat) (k j x : Nat) (h : k ≠ j) :
    (l.set k x).getD j 0 = l.getD j 0 := by
  simp [List.getD_eq_getElem?_getD, List.getElem?_set_ne h]

/-- Shifting left in 8 bits and or-ing in a bit is `2 * v + b` modulo 256. -/
theorem shift_or_bit (v b : Nat) (hb : b < 2) :
    (((v <<< 1) % 256) ||| b) % 256 = (2 * v + b) % 256 := by
  have heven : ∀ x < 256, ∀ c < 2, x % 2 = 0 → x ||| c = x + c := by decide!
  have hx : (v <<< 1) % 256 = (2 * v) % 256 := by rw [Nat.shiftLeft_eq]; omega
  rw [hx, heven ((2 * v) % 256) (Nat.mod_lt _ (by decide)) b hb (by omega)]
  omega

theorem protocolReceivedBit_lt_two (idr : Nat) : protocolReceivedBit idr < 2 := by
  unfold protocolReceivedBit
  split_ifs <;> decide

/-- One pending clock interrupt: the byte at `rx_buffer[rx_index / 8]` takes in
the received bit, and the 8-bit `rx_index` is incremented. -/
theorem EXTI2_IRQHandler_pending (s : ProtocolMinion) (idr : Nat) :
    EXTI2_IRQHandler s true idr =
      { s with
        rx_buffer := s.rx_buffer.set (s.rx_index / 8)
          ((2 * s.rx_buffer.getD (s.rx_index / 8) 0 + protocolReceivedBit idr) % 256)
        rx_index := (s.rx_index + 1) % 256 } := by
  have hidx : ¬ (s.rx_index + 1) % 256 ≥ BUFFER_SIZE * 8 := by
    have : (s.rx_index + 1) % 256 < 256 := Nat.mod_lt _ (by decide)
    simp only [BUFFER_SIZE]
    omega
  have hbit := protocolReceivedBit_lt_two idr
  simp only [EXTI2_IRQHandler, if_true, if_neg hidx, List.set_set]
  congr 1
  by_cases hk : s.rx_index / 8 < s.rx_buffer.length
  · rw [getD_set_self _ _ _ hk]
    show s.rx_buffer.set _ ((_ ||| protocolReceivedBit idr) % 256) = _
    rw [shift_or_bit _ _ hbit]
  · rw [List.set_eq_of_length_le (by omega), List.set_eq_of_length_le (by omega)]

/-- C26: receive-buffer indexing of `EXTI2_IRQHandler`.  With the 8-bit
`rx_index` (a value below 256): the element written, `rx_buffer[rx_index / 8]`,
has an index of at most 31, inside the 256-byte buffer; the condition of the
reset branch, `rx_index >= BUFFER_SIZE * 8`, is false after the increment, so
the branch is never taken; the index stays an 8-bit value and is incremented
modulo 256, wrapping from 255 to 0; and over every number of invocations no
element from index 32 on is changed. -/
theorem C26_receive_buffer_indexing :
    (∀ (s : ProtocolMinion) (pending : Bool) (idr : Nat), s.rx_index < 256 →
      s.rx_index / 8 ≤ 31 ∧ s.rx_index / 8 < BUFFER_SIZE ∧
      ¬ ((s.rx_index + 1) % 256 ≥ BUFFER_SIZE * 8) ∧
      (EXTI2_IRQHandler s pending idr).rx_index < 256 ∧
      (pending = true → (EXTI2_IRQHandler s pending idr).rx_index = (s.rx_index + 1) % 256) ∧
      (∀ j, 32 ≤ j →
        (EXTI2_IRQHandler s pending idr).rx_buffer.getD j 0 = s.rx_buffer.getD j 0)) ∧
    (∀ (s : ProtocolMinion) (idr : Nat), s.rx_index = 255 →
      (EXTI2_IRQHandler s true idr).rx_index = 0) ∧
    (∀ (s : ProtocolMinion) (idrs : List Nat), s.rx_index < 256 →
      (Protocol_Minion_run s idrs).rx_index < 256 ∧
      (∀ j, 32 ≤ j → (Protocol_Minion_run s idrs).rx_buffer.getD j 0 = s.rx_buffer.getD j 0)) := by
  have hstep : ∀ (s : ProtocolMinion) (pending : Bool) (idr : Nat), s.rx_index < 256 →
      (EXTI2_IRQHandler s pending idr).rx_index < 256 ∧
      (∀ j, 32 ≤ j →
        (EXTI2_IRQHandler s pending idr).rx_buffer.getD j 0 = s.rx_buffer.getD j 0) := by
    intro s pending idr h
    cases pending with
    | false => exact ⟨h, fun _ _ => rfl⟩
    | true =>
      rw [EXTI2_IRQHandler_pending]
      refine ⟨Nat.mod_lt _ (by decide), fun j hj => ?_⟩
      exact getD_set_ne _ _ _ _ (by omega)
  refine ⟨fun s pending idr h => ⟨by omega, by simp only [BUFFER_SIZE]; omega, ?_,
    (hstep s pending idr h).1, ?_, (hstep s pending idr h).2⟩, ?_, ?_⟩
  · have : (s.rx_index + 1) % 256 < 256 := Nat.mod_lt _ (by decide)
    simp only [BUFFER_SIZE]
    omega
  · intro hp
    rw [hp, EXTI2_IRQHandler_pending]
  · intro s idr h
    rw [EXTI2_IRQHandler_pending]
    show (s.rx_index + 1) % 256 = 0
    rw [h]
  · intro s idrs
    induction idrs generalizing s with
    | nil => intro h; exact ⟨h, fun _ _ => rfl⟩
    | cons x xs ih =>
      intro h
      obtain ⟨h1, h2⟩ := hstep s true x h
      obtain ⟨g1, g2⟩ := ih (EXTI2_IRQHandler s true x) h1
      exact ⟨g1, fun j hj => (g2 j hj).trans (h2 j hj)⟩

/-- Witness of C26: the receiver at `rx_index = 255`, where the index wraps. -/
theorem C26_receive_buffer_indexing_witness :
    ({ staleReceiver with rx_index := 255 } : ProtocolMinion).rx_index < 256 ∧
    ({ staleReceiver with rx_index := 255 } : ProtocolMinion).rx_index / 8 ≤ 31 ∧
    (EXTI2_IRQHandler { staleReceiver with rx_index := 255 } true (protocolSample 1)).rx_index
      < 256 ∧
    (EXTI2_IRQHandler { staleReceiver with rx_index := 255 } true (protocolSample 1)).rx_index
      = 0 ∧
    (Protocol_Minion_run { staleReceiver with rx_index := 255 }
      [protocolSample 1, protocolSample 0]).rx_index < 256 :=
  ⟨by decide,
    (C26_receive_buffer_indexing.1 { staleReceiver with rx_index := 255 } true
      (protocolSample 1) (by decide)).1,
    (C26_receive_buffer_indexing.1 { staleReceiver with rx_index := 255 } true
      (protocolSample 1) (by decide)).2.2.2.1,
    C26_receive_buffer_indexing.2.1 { staleReceiver with rx_index := 255 }
      (protocolSample 1) rfl,
    (C26_receive_buffer_indexing.2.2 { staleReceiver with rx_index := 255 }
      [protocolSample 1, protocolSample 0] (by decide)).1⟩

/-! ## Second implementation: byte round trip (C24) -/

theorem testBit_0xFFFF (i : Nat) : (0xFFFF : Nat).testBit i = decide (i < 16) := by
  have h := Nat.testBit_two_pow_sub_one 16 i
  norm_num at h
  simpa using h

/-- The bits of the output register after a store to `BSRR`. -/
theorem GPIO_BSRR_write_testBit (odr v i : Nat) :
    (GPIO_BSRR_write odr v).testBit i =
      ((odr.testBit i && (decide (i < 16) ^^ (v.testBit (16 + i) && decide (i < 16)))) ||
        (v.testBit i && decide (i < 16))) := by
  unfold GPIO_BSRR_write
  rw [Nat.testBit_or, Nat.testBit_and, Nat.testBit_xor, Nat.testBit_and, Nat.testBit_shiftRight,
    Nat.testBit_and, testBit_0xFFFF]

theorem mod_four_eq (x : Nat) :
    x % 4 = (x.testBit 0).toNat + 2 * (x.testBit 1).toNat := by
  rw [Nat.testBit_to_div_mod, Nat.testBit_to_div_mod, pow_zero, Nat.div_one, pow_one]
  by_cases h0 : x % 2 = 1 <;> by_cases h1 : x / 2 % 2 = 1 <;>
    simp only [h0, h1, decide_True, decide_False, Bool.toNat_true, Bool.toNat_false] <;> omega

/-- After TX_H set, TX_L reset and the clock raised the pair is high/low,
whatever the output register held. -/
theorem linePair_one (odr : Nat) :
    linePair (GPIO_BSRR_write
      (GPIO_BSRR_write (GPIO_BSRR_write odr GPIO_BSRR_BS0) GPIO_BSRR_BR1) GPIO_BSRR_BS2) = 1 := by
  unfold linePair
  rw [mod_four_eq]
  simp only [GPIO_BSRR_write_testBit]
  have c1 : GPIO_BSRR_BS2.testBit 0 = false := by decide
  have c2 : GPIO_BSRR_BS2.testBit 1 = false := by decide
  have c3 : GPIO_BSRR_BS2.testBit (16 + 0) = false := by decide
  have c4 : GPIO_BSRR_BS2.testBit (16 + 1) = false := by decide
  have c5 : GPIO_BSRR_BR1.testBit 0 = false := by decide
  have c6 : GPIO_BSRR_BR1.testBit 1 = false := by decide
  have c7 : GPIO_BSRR_BR1.testBit (16 + 0) = false := by decide
  have c8 : GPIO_BSRR_BR1.testBit (16 + 1) = true := by decide
  have c9 : GPIO_BSRR_BS0.testBit 0 = true := by decide
  have c10 : GPIO_BSRR_BS0.testBit 1 = false := by decide
  have c11 : GPIO_BSRR_BS0.testBit (16 + 0) = false := by decide
  have c12 : GPIO_BSRR_BS0.testBit (16 + 1) = false := by decide
  simp [c1, c2, c3, c4, c5, c6, c7, c8, c9, c10, c11, c12]

/-- After TX_H reset, TX_L set and the clock raised the pair is low/high,
whatever the output register held. -/
theorem linePair_zero (odr : Nat) :
    linePair (GPIO_BSRR_write
      (GPIO_BSRR_write (GPIO_BSRR_write odr GPIO_BSRR_BR0) GPIO_BSRR_BS1) GPIO_BSRR_BS2) = 2 := by
  unfold linePair
  rw [mod_four_eq]
  simp only [GPIO_BSRR_write_testBit]
  have c1 : GPIO_BSRR_BS2.testBit 0 = false := by decide
  have c2 : GPIO_BSRR_BS2.testBit 1 = false := by decide
  have c3 : GPIO_BSRR_BS2.testBit (16 + 0) = false := by decide
  have c4 : GPIO_BSRR_BS2.testBit (16 + 1) = false := by decide
  have c5 : GPIO_BSRR_BS1.testBit 0 = false := by decide
  have c6 : GPIO_BSRR_BS1.testBit 1 = true := by decide
  have c7 : GPIO_BSRR_BS1.testBit (16 + 0) = false := by decide
  have c8 : GPIO_BSRR_BS1.testBit (16 + 1) = false := by decide
  have c9 : GPIO_BSRR_BR0.testBit 0 = false := by decide
  have c10 : GPIO_BSRR_BR0.testBit 1 = false := by decide
  have c11 : GPIO_BSRR_BR0.testBit (16 + 0) = true := by decide
  have c12 : GPIO_BSRR_BR0.testBit (16 + 1) = false := by decide
  simp [c1, c2, c3, c4, c5, c6, c7, c8, c9, c10, c11, c12]

/-- The clock edges added by `n` iterations of the send loop carry the pair
states `sentPairs n data`. -/
theorem Protocol_Master_SendByte_loop_edges (n : Nat) :
    ∀ (p : ProtocolMaster) (data : Nat), ∃ added : List Nat,
      (Protocol_Master_SendByte_loop n p data).clockEdges = p.clockEdges ++ added ∧
      added.map linePair = sentPairs n data := by
  induction n with
  | zero => intro p data; exact ⟨[], by simp [Protocol_Master_SendByte_loop], rfl⟩
  | succ n ih =>
    intro p data
    by_cases hb : data &&& 0x80 ≠ 0
    · obtain ⟨added, h1, h2⟩ := ih
        (clock_pulse ⟨GPIO_BSRR_write (GPIO_BSRR_write p.GPIOA_ODR GPIO_BSRR_BS0)
          GPIO_BSRR_BR1, p.clockEdges⟩) ((data <<< 1) % 256)
      refine ⟨GPIO_BSRR_write (GPIO_BSRR_write (GPIO_BSRR_write p.GPIOA_ODR GPIO_BSRR_BS0)
        GPIO_BSRR_BR1) GPIO_BSRR_BS2 :: added, ?_, ?_⟩
      · have hloop : Protocol_Master_SendByte_loop (n + 1) p data =
            Protocol_Master_SendByte_loop n
              (clock_pulse ⟨GPIO_BSRR_write (GPIO_BSRR_write p.GPIOA_ODR GPIO_BSRR_BS0)
                GPIO_BSRR_BR1, p.clockEdges⟩) ((data <<< 1) % 256) := by
          simp only [Protocol_Master_SendByte_loop, if_pos hb]
        rw [hloop, h1]
        simp only [clock_pulse, List.append_assoc, List.singleton_append]
      · simp only [List.map_cons, linePair_one, h2, sentPairs, if_pos hb]
    · obtain ⟨added, h1, h2⟩ := ih
        (clock_pulse ⟨GPIO_BSRR_write (GPIO_BSRR_write p.GPIOA_ODR GPIO_BSRR_BR0)
          GPIO_BSRR_BS1, p.clockEdges⟩) ((data <<< 1) % 256)
      refine ⟨GPIO_BSRR_write (GPIO_BSRR_write (GPIO_BSRR_write p.GPIOA_ODR GPIO_BSRR_BR0)
        GPIO_BSRR_BS1) GPIO_BSRR_BS2 :: added, ?_, ?_⟩
      · have hloop : Protocol_Master_SendByte_loop (n + 1) p data =
            Protocol_Master_SendByte_loop n
              (clock_pulse ⟨GPIO_BSRR_write (GPIO_BSRR_write p.GPIOA_ODR GPIO_BSRR_BR0)
                GPIO_BSRR_BS1, p.clockEdges⟩) ((data <<< 1) % 256) := by
          simp only [Protocol_Master_SendByte_loop, if_neg hb]
        rw [hloop, h1]
        simp only [clock_pulse, List.append_assoc, List.singleton_append]
      · simp only [List.map_cons, linePair_zero, h2, sentPairs, if_neg hb]

/-- The eight pair states of a byte: bit 7 first, a 1 as high/low and a 0 as
low/high. -/
theorem sentPairs_eq_byteBits : ∀ B < 256, sentPairs 8 B = (byteBits B).map protocolSample := by
  decide!

/-- Function `Protocol_Master_SendByte(B)` drives, at its eight clock edges,
the bits of `B`, most significant first, a 1 as high/low and a 0 as
low/high. -/
theorem sendByteEdges_linePair (p : ProtocolMaster) (B : Nat) (hB : B < 256) :
    (sendByteEdges p B).map linePair = (byteBits B).map protocolSample := by
  obtain ⟨added, h1, h2⟩ := Protocol_Master_SendByte_loop_edges 8 p B
  unfold sendByteEdges Protocol_Master_SendByte
  rw [h1, List.drop_left, h2, sentPairs_eq_byteBits B hB]

/-- The receiver reads the bit `b` from every input value whose RX pair is in
the state that encodes `b`. -/
theorem protocolReceivedBit_of_pair (idr b : Nat) (hb : b < 2)
    (h : linePair idr = protocolSample b) : protocolReceivedBit idr = b := by
  have h1 : idr &&& GPIO_IDR_IDR0 = idr % 2 := Nat.and_one_is_mod idr
  have h2 : idr &&& GPIO_IDR_IDR1 = (idr.testBit 1).toNat * 2 := by
    have := Nat.and_two_pow idr 1
    simpa [GPIO_IDR_IDR1, RX_L_PIN] using this
  unfold protocolReceivedBit
  rw [h1, h2, Nat.testBit_to_div_mod]
  unfold linePair at h
  interval_cases b
  · have h4 : idr % 4 = 2 := h
    have hd : idr / 2 ^ 1 % 2 = 1 := by rw [pow_one]; omega
    simp only [hd, decide_True, Bool.toNat_true]
    rw [if_neg (by omega)]
  · have h4 : idr % 4 = 1 := h
    have hd : ¬ idr / 2 ^ 1 % 2 = 1 := by rw [pow_one]; omega
    simp only [hd, decide_False, Bool.toNat_false]
    rw [if_pos (by omega)]

/-- Input values whose RX pair follows the pair states of the bits `bits` are
read as `bits`. -/
theorem protocolReceivedBits_of_pairs (idrs : List Nat) :
    ∀ bits : List Nat, (∀ b ∈ bits, b < 2) →
      idrs.map linePair = bits.map protocolSample →
      idrs.map protocolReceivedBit = bits := by
  induction idrs with
  | nil =>
    intro bits _ h
    cases bits with
    | nil => rfl
    | cons b bs => simp at h
  | cons x xs ih =>
    intro bits hb h
    cases bits with
    | nil => simp at h
    | cons b bs =>
      simp only [List.map_cons, List.cons.injEq] at h ⊢
      exact ⟨protocolReceivedBit_of_pair x b (hb b (List.mem_cons_self _ _)) h.1,
        ih bs (fun c hc => hb c (List.mem_cons_of_mem _ hc)) h.2⟩

theorem Protocol_Minion_run_snoc (s : ProtocolMinion) (xs : List Nat) (x : Nat) :
    Protocol_Minion_run s (xs ++ [x]) = EXTI2_IRQHandler (Protocol_Minion_run s xs) true x := by
  simp [Protocol_Minion_run, List.foldl_append]

theorem shiftIn_snoc (v : Nat) (bits : List Nat) (b : Nat) :
    shiftIn v (bits ++ [b]) = (2 * shiftIn v bits + b) % 256 := by
  simp [shiftIn, List.foldl_append]

/-- Up to eight interrupts inside one byte of the buffer: the byte at
`rx_buffer[rx_index / 8]` takes in the received bits. -/
theorem Protocol_Minion_run_bits (idrs : List Nat) :
    ∀ s : ProtocolMinion, s.rx_index < 256 → s.rx_index % 8 + idrs.length ≤ 8 →
      s.rx_index / 8 < s.rx_buffer.length →
      (Protocol_Minion_run s idrs).rx_index = (s.rx_index + idrs.length) % 256 ∧
      (Protocol_Minion_run s idrs).rx_buffer =
        s.rx_buffer.set (s.rx_index / 8)
          (shiftIn (s.rx_buffer.getD (s.rx_index / 8) 0) (idrs.map protocolReceivedBit)) := by
  induction idrs using List.reverseRecOn with
  | nil =>
    intro s hi _ _
    refine ⟨by simp [Protocol_Minion_run, Nat.mod_eq_of_lt hi], ?_⟩
    show s.rx_buffer = s.rx_buffer.set _ (s.rx_buffer.getD _ 0)
    rw [set_getD_self]
  | append_singleton xs x ih =>
    intro s hi hlen hk
    have hlen' : s.rx_index % 8 + xs.length + 1 ≤ 8 := by
      simpa [Nat.add_assoc] using hlen
    obtain ⟨g1, g2⟩ := ih s hi (by omega) hk
    have hidx : (Protocol_Minion_run s xs).rx_index = s.rx_index + xs.length := by
      rw [g1]; omega
    have hdiv : (Protocol_Minion_run s xs).rx_index / 8 = s.rx_index / 8 := by
      rw [hidx]; omega
    rw [Protocol_Minion_run_snoc, EXTI2_IRQHandler_pending]
    refine ⟨?_, ?_⟩
    · show ((Protocol_Minion_run s xs).rx_index + 1) % 256 = _
      rw [hidx, List.length_append, List.length_singleton, Nat.add_assoc]
    · show (Protocol_Minion_run s xs).rx_buffer.set _ _ = _
      rw [hdiv, g2, getD_set_self _ _ _ hk, List.set_set, List.map_append, List.map_singleton,
        shiftIn_snoc]

/-- Eight bits shifted into any register content leave the number with these
binary digits, modulo 256. -/
theorem shiftIn_eight (v b7 b6 b5 b4 b3 b2 b1 b0 : Nat) :
    shiftIn v [b7, b6, b5, b4, b3, b2, b1, b0] =
      bitsToByte [b7, b6, b5, b4, b3, b2, b1, b0] % 256 := by
  simp only [shiftIn, bitsToByte, List.foldl]
  omega

theorem bitsToByte_byteBits : ∀ B < 256, bitsToByte (byteBits B) = B := by
  decide!

/-- The eight bits of a byte shifted into any register content leave the
byte. -/
theorem shiftIn_byteBits (v B : Nat) (hB : B < 256) : shiftIn v (byteBits B) = B := by
  have hlist : byteBits B = [(B >>> 7) &&& 1, (B >>> 6) &&& 1, (B >>> 5) &&& 1,
      (B >>> 4) &&& 1, (B >>> 3) &&& 1, (B >>> 2) &&& 1, (B >>> 1) &&& 1, (B >>> 0) &&& 1] := rfl
  rw [hlist, shiftIn_eight, ← hlist, bitsToByte_byteBits B hB, Nat.mod_eq_of_lt hB]

/-- C24: byte round trip of the second implementation.  For every byte `B`,
every state of the sender's port, every prior content of the 256-byte
`rx_buffer` and every 8-bit `rx_index` that is a multiple of 8: the pair states
at the eight clock edges of `Protocol_Master_SendByte(B)` are the bits of `B`,
most significant first, a 1 as high/low and a 0 as low/high; and if eight
successive `EXTI2_IRQHandler` invocations sample inputs whose RX pair carries
these states, then afterwards `rx_buffer[k] = B` for `k` the initial
`rx_index / 8`, and `rx_index` has advanced by 8 modulo 256. -/
theorem C24_byte_round_trip (p : ProtocolMaster) (B : Nat) (s : ProtocolMinion)
    (idrs : List Nat) (hB : B < 256) (hbuf : s.rx_buffer.length = BUFFER_SIZE)
    (hidx : s.rx_index < 256) (h8 : s.rx_index % 8 = 0)
    (hwire : idrs.map linePair = (sendByteEdges p B).map linePair) :
    (sendByteEdges p B).map linePair = (byteBits B).map protocolSample ∧
    (Protocol_Minion_run s idrs).rx_buffer.getD (s.rx_index / 8) 0 = B ∧
    (Protocol_Minion_run s idrs).rx_index = (s.rx_index + 8) % 256 := by
  have hpairs := sendByteEdges_linePair p B hB
  have hbits : idrs.map protocolReceivedBit = byteBits B :=
    protocolReceivedBits_of_pairs idrs (byteBits B) (byteBits_lt_two B) (hwire.trans hpairs)
  have hlen : idrs.length = 8 := by
    have := congrArg List.length hbits
    rwa [List.length_map, byteBits_length] at this
  have hk : s.rx_index / 8 < s.rx_buffer.length := by
    rw [hbuf]; simp only [BUFFER_SIZE]; omega
  obtain ⟨g1, g2⟩ := Protocol_Minion_run_bits idrs s hidx (by omega) hk
  refine ⟨hpairs, ?_, by rw [g1, hlen]⟩
  rw [g2, getD_set_self _ _ _ hk, hbits, shiftIn_byteBits _ B hB]

/-- Witness of C24: the byte 0xA5 sent from a port holding `0x1234` to a
receiver at bit 16 of its buffer, whose byte 2 holds stale content. -/
theorem C24_byte_round_trip_witness :
    (0xA5 : Nat) < 256 ∧ staleReceiver.rx_buffer.length = BUFFER_SIZE ∧
    staleReceiver.rx_index < 256 ∧ staleReceiver.rx_index % 8 = 0 ∧
    staleReceiver.rx_buffer.getD 2 0 = 0xFF ∧
    (sendByteEdges ⟨0x1234, []⟩ 0xA5).map linePair = (byteBits 0xA5).map protocolSample ∧
    (Protocol_Minion_run staleReceiver (sendByteEdges ⟨0x1234, []⟩ 0xA5)).rx_buffer.getD
      (staleReceiver.rx_index / 8) 0 = 0xA5 ∧
    (Protocol_Minion_run staleReceiver (sendByteEdges ⟨0x1234, []⟩ 0xA5)).rx_index
      = (staleReceiver.rx_index + 8) % 256 :=
  ⟨by decide, by decide!, by decide, by decide, by decide,
    C24_byte_round_trip ⟨0x1234, []⟩ 0xA5 staleReceiver (sendByteEdges ⟨0x1234, []⟩ 0xA5)
      (by decide) (by decide!) (by decide) (by decide) rfl⟩

end SSUP
